import Mathlib

set_option maxHeartbeats 1000000

/-!
Shallow embedding of the read classifier in
`pbtranscript-tofu/pbtools/pbtranscript/Classifier.py`.

Sequences are `List Char`, read/primer names are `String`, phmmer scores are
rationals.  Python dictionaries keyed by strings are association lists with
first-occurrence lookup and in-place replacement on insert.  Python exceptions
are modelled by the `PyError` inductive and fallible code returns
`Except PyError`.
-/

deriving instance DecidableEq for Except

inductive Strand
  | plus
  | minus
deriving DecidableEq, Repr

/-- The exception kinds raised by the classifier code: `ClassifierException`
(the domain error, a `PBTranscriptException` tagged "classify"), the generic
`ValueError` raised by `PBRead.__init__`, Python `assert` failures, and
division by zero. -/
inductive PyError
  | valueError (msg : String)
  | classifierException (msg : String)
  | assertionError
  | zeroDivisionError
deriving DecidableEq, Repr

/-- One row of phmmer DOM output as yielded by `DOMReader`. -/
structure DOMRecord where
  sid : String
  pid : String
  score : ℚ
  sStart : Nat
  sEnd : Nat
  sLen : Nat
  pStart : Nat
deriving DecidableEq, Repr

/-- A FASTA record as yielded by `FastaReader`: a name and a sequence. -/
structure FastaRecord where
  name : String
  sequence : List Char
deriving DecidableEq, Repr

/-- `ChimeraDetectionOptions` namedtuple. -/
structure ChimeraDetectionOptions where
  min_seq_len : Nat
  min_score : ℚ
  min_dist_from_end : Nat
  max_adjacent_hit_dist : Nat
  primer_search_window : Nat
deriving DecidableEq, Repr

/-- Python `d[k]` lookup on a dict modelled as an association list. -/
def dictLookup : List (String × α) → String → Option α
  | [], _ => none
  | p :: ps, k => if p.1 = k then some p.2 else dictLookup ps k

/-- Python `d[k] = v`: replace the binding if the key is present, else append. -/
def dictInsert : List (String × α) → String → α → List (String × α)
  | [], k, v => [(k, v)]
  | p :: ps, k, v => if p.1 = k then (k, v) :: ps else p :: dictInsert ps k v

/-- Python index clamping for `str.find`/`str.rfind`/slicing: a negative index
counts from the end (clamped at 0), a positive one is clamped at the length. -/
def pyIndex (len : Nat) (i : Int) : Nat :=
  if i < 0 then ((len : Int) + i).toNat else min i.toNat len

/-- Python `s[:i]`. -/
def pyTake (s : List Char) (i : Int) : List Char :=
  s.take (pyIndex s.length i)

/-- Python `s[i:]`. -/
def pyDrop (s : List Char) (i : Int) : List Char :=
  s.drop (pyIndex s.length i)

/-- Python `s.rfind(sub, start)`: the largest index `i ≥ start` (after Python
index clamping) at which `sub` occurs in `s`, or `-1` if there is none. -/
def pyRfind (s sub : List Char) (start : Int) : Int :=
  let lo := pyIndex s.length start
  match ((List.range (s.length + 1)).filter
      (fun i => decide (lo ≤ i) && sub.isPrefixOf (s.drop i))).max? with
  | some i => (i : Int)
  | none => -1

/-- Python `hay.find(sub) >= 0`: substring containment. -/
def pyContains (hay sub : List Char) : Bool :=
  (List.range (hay.length + 1)).any (fun i => sub.isPrefixOf (hay.drop i))

/-- Modelled from the spec: `revcmp` from `pbtools.pbtranscript.Utils` is not
under `src/`; per the spec it is the reverse complement of a DNA sequence. -/
def cmpBase (c : Char) : Char :=
  if c = 'A' then 'T'
  else if c = 'T' then 'A'
  else if c = 'C' then 'G'
  else if c = 'G' then 'C'
  else c

/-- Modelled from the spec: reverse complement of a sequence. -/
def revcmp (s : List Char) : List Char :=
  (s.map cmpBase).reverse

/-! ### PBRead: the read-identity parser

`PBRead.__init__` tries, in order, the regexes `(.+)/(\d+)/ccs`,
`(.+)/(\d+)$` and `(.+)/(\d+)/(\d+)_(\d+)` with `re.search`.  Each matcher
below reproduces `re.search` semantics for its pattern: the leading greedy
`(.+)` takes the longest prefix (the rightmost `/` split) whose continuation
matches, the `(\d+)` groups are maximal digit runs, and the match is
unanchored on the right unless the pattern ends in `$`. -/

/-- Maximal digit-run split: `(\d+)` followed by the rest. -/
def spanDigits : List Char → List Char × List Char
  | [] => ([], [])
  | c :: cs =>
    if c.isDigit then
      let p := spanDigits cs
      (c :: p.1, p.2)
    else ([], c :: cs)

def digitsToNat (ds : List Char) : Nat :=
  ds.foldl (fun a c => a * 10 + (c.toNat - '0'.toNat)) 0

/-- After the `/` consumed by `(.+)/`: match `(\d+)/ccs` and return the
digit group. -/
def ccsTail (cs : List Char) : Option (List Char) :=
  let p := spanDigits cs
  if !p.1.isEmpty && ['/', 'c', 'c', 's'].isPrefixOf p.2 then some p.1 else none

/-- Greedy search for `(.+)/(\d+)/ccs`: prefer the rightmost `/` whose
continuation matches; returns the `(.+)` group and the `(\d+)` group. -/
def searchCCS : List Char → Option (List Char × List Char)
  | [] => none
  | c :: cs =>
    match searchCCS cs with
    | some p => some (c :: p.1, p.2)
    | none =>
      if c = '/' then
        match ccsTail cs with
        | some d => some ([], d)
        | none => none
      else none

/-- `re.search(r"(.+)/(\d+)/ccs", name)` group extraction; `none` when the
pattern does not match (the `(.+)` group must be nonempty). -/
def matchCCS (name : String) : Option (String × Nat) :=
  match searchCCS name.data with
  | some (pre, d) => if pre.isEmpty then none else some (String.mk pre, digitsToNat d)
  | none => none

/-- Greedy search for `(.+)/(\d+)$` (anchored at the end of the string). -/
def searchZmwEnd : List Char → Option (List Char × List Char)
  | [] => none
  | c :: cs =>
    match searchZmwEnd cs with
    | some p => some (c :: p.1, p.2)
    | none =>
      if c = '/' && !cs.isEmpty && cs.all Char.isDigit then some ([], cs) else none

/-- `re.search(r"(.+)/(\d+)$", name)` group extraction. -/
def matchZmwEnd (name : String) : Option (String × Nat) :=
  match searchZmwEnd name.data with
  | some (pre, d) => if pre.isEmpty then none else some (String.mk pre, digitsToNat d)
  | none => none

/-- After the `/` consumed by `(.+)/`: match `(\d+)/(\d+)_(\d+)` and return
the three digit groups. -/
def subreadTail (cs : List Char) : Option (List Char × List Char × List Char) :=
  let p1 := spanDigits cs
  if p1.1.isEmpty then none else
  match p1.2 with
  | '/' :: rest =>
    let p2 := spanDigits rest
    if p2.1.isEmpty then none else
    match p2.2 with
    | '_' :: rest2 =>
      let p3 := spanDigits rest2
      if p3.1.isEmpty then none else some (p1.1, p2.1, p3.1)
    | _ => none
  | _ => none

/-- Greedy search for `(.+)/(\d+)/(\d+)_(\d+)`. -/
def searchSubread : List Char → Option (List Char × List Char × List Char × List Char)
  | [] => none
  | c :: cs =>
    match searchSubread cs with
    | some p => some (c :: p.1, p.2)
    | none =>
      if c = '/' then
        match subreadTail cs with
        | some d => some ([], d.1, d.2.1, d.2.2)
        | none => none
      else none

/-- `re.search(r"(.+)/(\d+)/(\d+)_(\d+)", name)` group extraction. -/
def matchSubread (name : String) : Option (String × Nat × Nat × Nat) :=
  match searchSubread name.data with
  | some (pre, z, s, e) =>
    if pre.isEmpty then none
    else some (String.mk pre, digitsToNat z, digitsToNat s, digitsToNat e)
  | none => none

/-- The `PBRead` object.  The Python attribute `end` is called `stop` here
(`end` is a Lean keyword). -/
structure PBRead where
  sequence : List Char
  name : String
  isCCS : Bool
  start : Nat
  stop : Nat
  movie : String
  zmw : Nat
deriving DecidableEq, Repr

/-- `PBRead.__init__`: try the ccs pattern, then the bare-zmw pattern (both
consensus forms with range `[0, len(sequence))`), then the subread-range
pattern; raise `ValueError` when none matches. -/
def mkPBRead (read : FastaRecord) : Except PyError PBRead :=
  match matchCCS read.name with
  | some p => .ok ⟨read.sequence, read.name, true, 0, read.sequence.length, p.1, p.2⟩
  | none =>
    match matchZmwEnd read.name with
    | some p => .ok ⟨read.sequence, read.name, true, 0, read.sequence.length, p.1, p.2⟩
    | none =>
      match matchSubread read.name with
      | some p => .ok ⟨read.sequence, read.name, false, p.2.2.1, p.2.2.2, p.1, p.2.1⟩
      | none => .error (.valueError ("Unsupported PacBio read " ++ read.name))

/-! ### The poly-A finder (`Classifier._findPolyA`) -/

/-- The backtracking loop of `_findPolyA`: starting at index `i` (which holds
the first base of the rightmost `polyA` occurrence) walk toward the 5' end
counting non-A bases; stop as soon as a third non-A is seen, returning `i + 1`
for the `i` at which it was seen, or `0` when the front of the sequence is
reached first. -/
def polyABacktrack (seq : List Char) : Nat → Nat → Int
  | 0, nonA =>
    if nonA + (if seq.getD 0 'A' ≠ 'A' then 1 else 0) > 2 then 1 else 0
  | i + 1, nonA =>
    let nonA2 := nonA + (if seq.getD (i + 1) 'A' ≠ 'A' then 1 else 0)
    if nonA2 > 2 then (i : Int) + 2 else polyABacktrack seq i nonA2

/-- The `startEnd` of `_findPolyA`: `three_start - offset` with `offset = 50`,
or `len(seq) - offset` when there is no 3' hit. -/
def polyASearchStart (seq : List Char) (three_start : Option Int) : Int :=
  match three_start with
  | some t => t - 50
  | none => (seq.length : Int) - 50

/-- `Classifier._findPolyA(seq, min_a_num, three_start)`: `rfind` the
`min_a_num`-long A-block searching from `startEnd` on, then backtrack
allowing at most two non-A bases; `-1` when the block is absent or found at
index 0. -/
def findPolyA (seq : List Char) (min_a_num : Nat) (three_start : Option Int) : Int :=
  let polyA := List.replicate min_a_num 'A'
  let i := pyRfind seq polyA (polyASearchStart seq three_start)
  if i > 0 then polyABacktrack seq i.toNat 0 else -1

/-! ### ReadAnnotation (external collaborator, modelled from the spec) -/

/-- Modelled from the spec: `pbtools.pbtranscript.io.ReadAnnotation` is not
under `src/`.  Per the spec it carries identifier, strand, five-prime-end
offset, three-prime-end offset, poly-A-end offset, primer combo index and
chimera flag, constructed once per read (fields left `none` when the
corresponding evidence is absent; `polyAend` holds the raw `_findPolyA`
result, `-1` meaning not found). -/
structure ReadAnnotation where
  ID : String
  strand : Option Strand
  fiveend : Option Nat
  polyAend : Option Int
  threeend : Option Int
  primer : Option Nat
  chimera : Option Nat
  ignorePolyA : Bool
deriving DecidableEq, Repr

/-- Modelled from the spec: the full-length predicate of `ReadAnnotation` is
"presence of 5'/3' evidence (and, depending on a configuration flag, also
poly-A evidence)". -/
def ReadAnnotation.isFullLength (a : ReadAnnotation) : Bool :=
  a.fiveend.isSome && a.threeend.isSome &&
    (a.ignorePolyA ||
      (match a.polyAend with
       | some p => decide (0 ≤ p)
       | none => false))

/-- One record of the trimmed full-length stream: its annotation (whose `ID`
is the first whitespace-separated token of the FASTA header written by
`annotation.toAnnotation()`) and its trimmed sequence. -/
structure FLRead where
  ann : ReadAnnotation
  sequence : List Char
deriving DecidableEq, Repr

/-! ### The primer-combo arbiter (`Classifier._pickBestPrimerCombo`) -/

/-- Score contribution of one side: `d[k].score` when the map exists and has
the key, else 0. -/
def optScore (d : Option (List (String × DOMRecord))) (k : String) : ℚ :=
  match d with
  | none => 0
  | some m =>
    match dictLookup m k with
    | some r => r.score
    | none => 0

/-- The tally of combo index `ind`: `(+)` sums `front[F_ind]` and
`back[R_ind]`, `(-)` sums `front[R_ind]` and `back[F_ind]`. -/
def tallyScore (dFront dBack : Option (List (String × DOMRecord)))
    (ind : Nat) : Strand → ℚ
  | .plus => optScore dFront ("F" ++ toString ind) + optScore dBack ("R" ++ toString ind)
  | .minus => optScore dFront ("R" ++ toString ind) + optScore dBack ("F" ++ toString ind)

/-- The `tally` dict of `_pickBestPrimerCombo`, as the list of its entries in
insertion order (for each combo index, the `+` entry then the `-` entry). -/
def comboTally (dFront dBack : Option (List (String × DOMRecord)))
    (primer_indices : List Nat) : List ((Nat × Strand) × ℚ) :=
  primer_indices.flatMap (fun ind =>
    [((ind, Strand.plus), tallyScore dFront dBack ind Strand.plus),
     ((ind, Strand.minus), tallyScore dFront dBack ind Strand.minus)])

/-- The selection loop over the tally: `if bestScore <= s` replaces the
current best, starting from `(None, None, -1000)`. -/
def pickLoop : List ((Nat × Strand) × ℚ) → Option Nat × Option Strand × ℚ →
    Option Nat × Option Strand × ℚ
  | [], st => st
  | e :: es, st =>
    if st.2.2 ≤ e.2 then pickLoop es (some e.1.1, some e.1.2, e.2) else pickLoop es st

/-- `getDomRecord(d, k, min_score)`: the stored hit when its own score
reaches `min_score`, otherwise `None`. -/
def getDomRecord (d : Option (List (String × DOMRecord))) (k : String)
    (min_score : ℚ) : Option DOMRecord :=
  match d with
  | none => none
  | some m =>
    match dictLookup m k with
    | some r => if min_score ≤ r.score then some r else none
    | none => none

/-- `Classifier._pickBestPrimerCombo`: tally each combo in both orientations,
pick the last maximal tally of the iteration (`bestScore <= s` starting at
`-1000`), then re-derive the two per-side hits of the winner through
`getDomRecord` (Python renders a missing index as the string `"None"`). -/
def pickBestPrimerCombo (dFront dBack : Option (List (String × DOMRecord)))
    (primer_indices : List Nat) (min_score : ℚ) :
    Option Nat × Option Strand × Option DOMRecord × Option DOMRecord :=
  let best := pickLoop (comboTally dFront dBack primer_indices) (none, none, -1000)
  let bestInd := best.1
  let bestStrand := best.2.1
  let k1 := "F" ++ (match bestInd with | some i => toString i | none => "None")
  let k2 := "R" ++ (match bestInd with | some i => toString i | none => "None")
  if bestStrand = some Strand.plus then
    (bestInd, bestStrand, getDomRecord dFront k1 min_score, getDomRecord dBack k2 min_score)
  else
    (bestInd, bestStrand, getDomRecord dBack k1 min_score, getDomRecord dFront k2 min_score)

/-! ### The edge-anchored best-hit selector (`Classifier._getBestFrontBackRecord`) -/

/-- A hit survives the edge filter unless its start offset on the query or on
the primer exceeds 48. -/
def edgeOK (r : DOMRecord) : Bool :=
  !(decide (r.sStart > 48) || decide (r.pStart > 48))

/-- Python `s.endswith(suffix)`, on the code-point sequence. -/
def pyEndsWith (s suffix : String) : Bool :=
  suffix.data.isSuffixOf s.data

/-- Python `s[:-n]`, on the code-point sequence. -/
def pyDropRight (s : String) (n : Nat) : String :=
  String.mk (s.data.take (s.data.length - n))

/-- `r.sid = r.sid[:-6]` after an `_front` suffix. -/
def stripFront (r : DOMRecord) : DOMRecord :=
  { r with sid := pyDropRight r.sid 6 }

/-- `r.sid = r.sid[:-5]` after a `_back` suffix. -/
def stripBack (r : DOMRecord) : DOMRecord :=
  { r with sid := pyDropRight r.sid 5 }

abbrev BestMap := List (String × List (String × DOMRecord))

instance decEqBestMapPair : DecidableEq (BestMap × BestMap) := fun a b =>
  instDecidableEqProd a b

/-- Store hit `r` in `bestOf`: create the inner dict for `r.sid` when absent,
then set `bestOf[r.sid][r.pid] = r` iff the key is new or the stored score is
strictly smaller. -/
def bestInsert (m : BestMap) (r : DOMRecord) : BestMap :=
  let inner := (dictLookup m r.sid).getD []
  let inner2 :=
    match dictLookup inner r.pid with
    | some old => if old.score < r.score then dictInsert inner r.pid r else inner
    | none => dictInsert inner r.pid r
  dictInsert m r.sid inner2

/-- One iteration of `_getBestFrontBackRecord`: skip far-from-edge hits,
route by the `_front`/`_back` suffix (stripping it), and raise
`ClassifierException` when neither suffix is present. -/
def bestStep (st : BestMap × BestMap) (r : DOMRecord) :
    Except PyError (BestMap × BestMap) :=
  if decide (r.sStart > 48) || decide (r.pStart > 48) then .ok st
  else if pyEndsWith r.sid "_front" then .ok (bestInsert st.1 (stripFront r), st.2)
  else if pyEndsWith r.sid "_back" then .ok (st.1, bestInsert st.2 (stripBack r))
  else .error (.classifierException ("Unable to parse a read " ++ r.sid ++ " in phmmer dom file."))

/-- `Classifier._getBestFrontBackRecord`: fold `bestStep` over the DOM rows,
returning the front and back best-hit maps. -/
def getBestFrontBackRecord (rs : List DOMRecord) :
    Except PyError (BestMap × BestMap) :=
  rs.foldlM bestStep ([], [])

/-! ### The chimera-candidate selector and resolver -/

/-- The body-interior condition of `_getChimeraRecord`: the hit starts beyond
`min_dist_from_end`, ends before `sLen - min_dist_from_end`, and scores above
`min_score`. -/
def chimCond (opts : ChimeraDetectionOptions) (r : DOMRecord) : Bool :=
  decide (opts.min_dist_from_end < r.sStart) &&
  decide (r.sEnd < r.sLen - opts.min_dist_from_end) &&
  decide (opts.min_score < r.score)

/-- Append `v` to the list at key `k` (`defaultdict(lambda: [])` append). -/
def dictAppendAt (d : List (String × List DOMRecord)) (k : String) (v : DOMRecord) :
    List (String × List DOMRecord) :=
  match dictLookup d k with
  | some l => dictInsert d k (l ++ [v])
  | none => d ++ [(k, [v])]

/-- `Classifier._getChimeraRecord`: collect, per query id, the hits that land
in the body of the sequence with a decent score. -/
def getChimeraRecord (opts : ChimeraDetectionOptions) (rs : List DOMRecord) :
    List (String × List DOMRecord) :=
  rs.foldl (fun acc r => if chimCond opts r then dictAppendAt acc r.sid r else acc) []

/-- Set the `chimera` field of a full-length read's annotation. -/
def setChimera (v : Nat) (rd : FLRead) : FLRead :=
  { rd with ann := { rd.ann with chimera := some v } }

/-- Modelled from the spec: the `ClassifySummary` counters (the "RunSummary"
of the spec), all starting at zero and incremented by the trim/annotate and
chimera phases. -/
structure Summary where
  num_reads : Nat
  num_5_seen : Nat
  num_3_seen : Nat
  num_polyA_seen : Nat
  num_filtered_short_reads : Nat
  num_nfl : Nat
  num_fl : Nat
  num_flnc : Nat
  num_flnc_bases : Nat
  num_flc : Nat
deriving DecidableEq, Repr

def Summary.empty : Summary := ⟨0, 0, 0, 0, 0, 0, 0, 0, 0, 0⟩

/-- `Classifier._updateChimeraInfo`: walk the full-length stream; a read whose
id is absent from the suspicious-hit map gets `chimera = 0` (after the
`assert(annotation.isFullLength)`), is counted in `num_flnc`/`num_flnc_bases`
and written to the flnc stream; otherwise it gets `chimera = 1`, is counted in
`num_flc` and written to the flc stream.  Every read contributes one report
row.  Returns the final summary, the flnc stream, the flc stream and the
number of report rows. -/
def updateChimeraInfo (susp : List (String × List DOMRecord)) :
    List FLRead → Summary → Except PyError (Summary × List FLRead × List FLRead × Nat)
  | [], s => .ok (s, [], [], 0)
  | rd :: rds, s =>
    if (dictLookup susp rd.ann.ID).isSome = false then
      let rd2 := setChimera 0 rd
      if rd2.ann.isFullLength = false then .error .assertionError
      else
        match updateChimeraInfo susp rds
            { s with num_flnc := s.num_flnc + 1,
                     num_flnc_bases := s.num_flnc_bases + rd.sequence.length } with
        | .error e => .error e
        | .ok (s', flnc, flc, rows) => .ok (s', rd2 :: flnc, flc, rows + 1)
    else
      let rd2 := setChimera 1 rd
      match updateChimeraInfo susp rds { s with num_flc := s.num_flc + 1 } with
      | .error e => .error e
      | .ok (s', flnc, flc, rows) => .ok (s', flnc, rd2 :: flc, rows + 1)

/-! ### The trim/annotate engine (`Classifier._trimBarCode`) -/

/-- The `"{m}/{z}/{s1}_{e1}{isccs}"` read id used when `change_read_id`. -/
def mkNewName (movie : String) (zmw : Nat) (s1 e1 : Int) (isCCS : Bool) : String :=
  movie ++ "/" ++ toString zmw ++ "/" ++ toString s1 ++ "_" ++ toString e1 ++
    (if isCCS then "_CCS" else "")

/-- The terminal disposition of one read in the trim phase. -/
inductive Disposition
  | filteredShort
  | nonFullLength (rec : FLRead)
  | fullLength (rec : FLRead)
deriving DecidableEq, Repr

/-- The evidence counters of the primer branch of `_trimBarCode`:
`num_5_seen` when a 5' hit is confirmed, `num_3_seen` when a 3' hit is
confirmed, `num_polyA_seen` when the poly-A tail is found. -/
def evidenceBump (fw rc : Option DOMRecord) (polyAPos : Int) (s : Summary) : Summary :=
  let s := if fw.isSome then { s with num_5_seen := s.num_5_seen + 1 } else s
  let s := if rc.isSome then { s with num_3_seen := s.num_3_seen + 1 } else s
  if 0 ≤ polyAPos then { s with num_polyA_seen := s.num_polyA_seen + 1 } else s

/-- The body of the `_trimBarCode` loop for one read: parse the read name,
arbitrate the primer combo, and either take the no-primer branch (trivially
non-full-length) or orient the sequence, find the poly-A tail, clip 3' then
5', remap coordinates and classify.  Returns the updated summary (the
`num_reads`/`num_5_seen`/`num_3_seen`/`num_polyA_seen` counters), the
disposition carrying the written record, and the number of nfl report rows
written (full-length reads are reported only after chimera detection). -/
def classifyRead (bf bb : BestMap) (primer_indices : List Nat)
    (min_seq_len : Nat) (min_score : ℚ) (change_read_id ignore_polyA : Bool)
    (read : FastaRecord) (s0 : Summary) :
    Except PyError (Summary × Disposition × Nat) :=
  let s := { s0 with num_reads := s0.num_reads + 1 }
  match mkPBRead read with
  | .error e => .error e
  | .ok pbread =>
    let pick := pickBestPrimerCombo (dictLookup bf read.name) (dictLookup bb read.name)
        primer_indices min_score
    let primerIndex := pick.1
    let strand := pick.2.1
    let fw := pick.2.2.1
    let rc := pick.2.2.2
    if fw.isNone && rc.isNone then
      let newName := if change_read_id then
          mkNewName pbread.movie pbread.zmw pbread.start pbread.stop pbread.isCCS
        else pbread.name
      let ann : ReadAnnotation := ⟨newName, none, none, none, none, none, none, ignore_polyA⟩
      if min_seq_len ≤ read.sequence.length then
        .ok (s, .nonFullLength ⟨ann, read.sequence⟩, 1)
      else
        .ok (s, .filteredShort, 1)
    else
      let seq0 := if strand = some Strand.plus then read.sequence else revcmp read.sequence
      let five_end : Option Nat := fw.map (fun r => r.sEnd)
      let three_start : Option Int := rc.map (fun r => (seq0.length : Int) - (r.sEnd : Int))
      let sPos : Int := pbread.start
      let ePos : Int := pbread.stop
      let polyAPos := findPolyA seq0 8 three_start
      let s := evidenceBump fw rc polyAPos s
      let step3 : List Char × Int :=
        if 0 ≤ polyAPos then
          (pyTake seq0 polyAPos,
           (if strand = some Strand.plus then sPos + polyAPos else ePos - polyAPos))
        else
          match three_start with
          | some ts =>
            (pyTake seq0 ts,
             (if strand = some Strand.plus then sPos + ts else ePos - ts))
          | none =>
            (seq0, (if strand = some Strand.plus then ePos else sPos))
      let seq1 := step3.1
      let e1 := step3.2
      let step5 : List Char × Int :=
        match five_end with
        | some fe =>
          (pyDrop seq1 fe, (if strand = some Strand.plus then sPos + fe else ePos - fe))
        | none => (seq1, (if strand = some Strand.plus then sPos else ePos))
      let seq2 := step5.1
      let s1 := step5.2
      let newName := if change_read_id then mkNewName pbread.movie pbread.zmw s1 e1 pbread.isCCS
        else pbread.name
      let ann : ReadAnnotation :=
        ⟨newName, strand, five_end, some polyAPos, three_start, primerIndex, none, ignore_polyA⟩
      let rows := if ann.isFullLength then 0 else 1
      if min_seq_len ≤ seq2.length then
        if ann.isFullLength then .ok (s, .fullLength ⟨ann, seq2⟩, rows)
        else .ok (s, .nonFullLength ⟨ann, seq2⟩, rows)
      else
        .ok (s, .filteredShort, rows)

/-- `Classifier._trimBarCode`: classify every read, counting each terminal
disposition in its summary bucket and collecting the full-length and
non-full-length output streams (in input order) and the nfl report rows. -/
def trimBarCode (bf bb : BestMap) (primer_indices : List Nat)
    (min_seq_len : Nat) (min_score : ℚ) (change_read_id ignore_polyA : Bool) :
    List FastaRecord → Summary →
    Except PyError (Summary × List FLRead × List FLRead × Nat)
  | [], s => .ok (s, [], [], 0)
  | read :: rest, s =>
    match classifyRead bf bb primer_indices min_seq_len min_score
        change_read_id ignore_polyA read s with
    | .error e => .error e
    | .ok (s2, disp, rows0) =>
      let s3 := match disp with
        | .filteredShort =>
          { s2 with num_filtered_short_reads := s2.num_filtered_short_reads + 1 }
        | .nonFullLength _ => { s2 with num_nfl := s2.num_nfl + 1 }
        | .fullLength _ => { s2 with num_fl := s2.num_fl + 1 }
      match trimBarCode bf bb primer_indices min_seq_len min_score
          change_read_id ignore_polyA rest s3 with
      | .error e => .error e
      | .ok (s', fl, nfl, rows) =>
        match disp with
        | .filteredShort => .ok (s', fl, nfl, rows + rows0)
        | .nonFullLength rec => .ok (s', fl, rec :: nfl, rows + rows0)
        | .fullLength rec => .ok (s', rec :: fl, nfl, rows + rows0)

/-! ### Read chunking and the chunk-count computation -/

/-- `int(math.ceil(n / float(k)))` for `k > 0`. -/
def ceilDivNat (n k : Nat) : Nat := (n + k - 1) / k

/-- The chunk-count computation at the top of `Classifier.runPrimerTrimmer`
(taken when no cached dom file exists): `num_chunks = max(min(cpus,
numReads), 1)`, `reads_per_chunk = ceil(numReads/num_chunks)`, then
`num_chunks` is recomputed as `ceil(numReads/reads_per_chunk)` — a float
division that raises `ZeroDivisionError` when `reads_per_chunk` is 0.
Returns `(reads_per_chunk, num_chunks)`. -/
def primerTrimmerChunkCounts (numReads cpus : Nat) : Except PyError (Nat × Nat) :=
  let num_chunks := max (min cpus numReads) 1
  let reads_per_chunk := ceilDivNat numReads num_chunks
  if reads_per_chunk = 0 then .error .zeroDivisionError
  else .ok (reads_per_chunk, ceilDivNat numReads reads_per_chunk)

/-- `Classifier.runPrimerTrimmer` up to the chunk computation: when the
front/back dom file already exists the chunking is skipped entirely,
otherwise the chunk counts are computed from the read count. -/
def runPrimerTrimmerChunkSetup (numReads cpus : Nat) (domExists : Bool) :
    Except PyError (Option (Nat × Nat)) :=
  if domExists then .ok none
  else
    match primerTrimmerChunkCounts numReads cpus with
    | .error e => .error e
    | .ok p => .ok (some p)

/-- The loop of `Classifier._chunkReads`: a new chunk file is opened whenever
`i % reads_per_chunk == 0` (closing the previous one); `cur` is the current
chunk, most recent read first. -/
def chunkReadsAux (rpc : Nat) : List α → Nat → List α → List (List α)
  | [], _, cur => if cur.isEmpty then [] else [cur.reverse]
  | x :: xs, i, cur =>
    if i % rpc = 0 then
      if cur.isEmpty then chunkReadsAux rpc xs (i + 1) [x]
      else cur.reverse :: chunkReadsAux rpc xs (i + 1) [x]
    else chunkReadsAux rpc xs (i + 1) (x :: cur)

/-- `Classifier._chunkReads`: the list of chunk files actually written, each
holding the reads routed to it in input order. -/
def chunkReads (rpc : Nat) (reads : List α) : List (List α) :=
  chunkReadsAux rpc reads 0 []

/-! ### Primer processing and input validation -/

/-- The loop body of `Classifier._processPrimers` over the primer FASTA
records: enforce the `F0, R0, F1, R1, ...` naming, enforce primer length
within the search window, and expand each pair (appending the poly-T/poly-A
disambiguation tag when forward and reverse are reverse-complementarily
identical; in chimera mode additionally writing both reverse complements).
State: record index `i`, current combo id, accumulated output records. -/
def processPrimersLoop (window_size : Nat) (revcmp_primers : Bool) :
    List FastaRecord → Nat → Int → List (String × List Char) →
    Except PyError (List (String × List Char) × Int)
  | [], _, comboId, primers => .ok (primers, comboId)
  | r :: rs, i, comboId, primers =>
    let comboId2 := if i % 2 = 0 then comboId + 1 else comboId
    let direction := if i % 2 = 0 then "F" else "R"
    let expectedName := direction ++ toString comboId2
    if r.name ≠ expectedName then
      .error (.classifierException "Primers should be placed in order F0, R0, F1, R1...")
    else if r.sequence.length > window_size then
      .error (.classifierException ("Primer " ++ expectedName ++
        " has length longer than the window size."))
    else if i % 2 = 0 then
      processPrimersLoop window_size revcmp_primers rs (i + 1) comboId2
        (primers ++ [(expectedName, r.sequence)])
    else
      let fwdF := ((primers.getLast?).map Prod.snd).getD []
      let fwdR := r.sequence
      let revcmpF := revcmp fwdF
      let revcmpR := revcmp fwdR
      let newRecs : List (String × List Char) :=
        if pyContains fwdF revcmpR || pyContains revcmpR fwdF then
          if revcmp_primers = false then
            [(expectedName, revcmpR ++ List.replicate 4 'T')]
          else
            [(expectedName, List.replicate 4 'A' ++ fwdR),
             ("F" ++ toString comboId2 ++ "_revcmp", revcmpF),
             ("R" ++ toString comboId2 ++ "_revcmp", revcmpR ++ List.replicate 4 'T')]
        else
          if revcmp_primers = false then
            [(expectedName, revcmpR)]
          else
            [(expectedName, fwdR),
             ("F" ++ toString comboId2 ++ "_revcmp", revcmpF),
             ("R" ++ toString comboId2 ++ "_revcmp", revcmpR)]
      processPrimersLoop window_size revcmp_primers rs (i + 1) comboId2
        (primers ++ newRecs)

/-- `Classifier._processPrimers`: run the loop from index 0 and combo id -1,
returning the canonical primer records and `range(0, primerComboId + 1)`. -/
def processPrimers (prs : List FastaRecord) (window_size : Nat)
    (revcmp_primers : Bool) :
    Except PyError (List (String × List Char) × List Nat) :=
  match processPrimersLoop window_size revcmp_primers prs 0 (-1) [] with
  | .error e => .error e
  | .ok p => .ok (p.1, List.range (p.2 + 1).toNat)

/-- `Classifier._validateInputs`, with `op.exists` of the three paths passed
in as booleans: each missing file raises `ClassifierException`. -/
def validateInputs (readsExists primerExists matrixExists : Bool) :
    Except PyError Unit :=
  if readsExists = false then
    .error (.classifierException "Unable to find reads file")
  else if primerExists = false then
    .error (.classifierException "Unable to find primer file")
  else if matrixExists = false then
    .error (.classifierException "Unable to find matrix file for PacBio reads")
  else .ok ()

/-! ### Derived notions used by the theorems -/

/-- A DOM row that survives the edge filter but carries neither the `_front`
nor the `_back` suffix (the fatal case of `_getBestFrontBackRecord`). -/
def badRow (r : DOMRecord) : Bool :=
  edgeOK r && !pyEndsWith r.sid "_front" && !pyEndsWith r.sid "_back"

/-- The hits routed to the front map: edge-anchored `_front` rows, with the
suffix stripped. -/
def frontSurvivors (rs : List DOMRecord) : List DOMRecord :=
  (rs.filter (fun r => edgeOK r && pyEndsWith r.sid "_front")).map stripFront

/-- The hits routed to the back map: edge-anchored rows that do not end in
`_front` but end in `_back`, with the suffix stripped. -/
def backSurvivors (rs : List DOMRecord) : List DOMRecord :=
  (rs.filter (fun r => edgeOK r && !pyEndsWith r.sid "_front" && pyEndsWith r.sid "_back")).map
    stripBack

/-- The survivors belonging to one (query id, primer id) pair. -/
def candsFor (l : List DOMRecord) (sid pid : String) : List DOMRecord :=
  l.filter (fun r => r.sid = sid && r.pid = pid)

/-- The dict-update rule of `_getBestFrontBackRecord` as a fold step: keep
the incumbent unless the new hit scores strictly higher. -/
def keepBest (acc : Option DOMRecord) (r : DOMRecord) : Option DOMRecord :=
  match acc with
  | none => some r
  | some o => if o.score < r.score then some r else some o

/-- The hit retained after folding `keepBest` over a list of hits. -/
def bestOfList (l : List DOMRecord) : Option DOMRecord := l.foldl keepBest none

/-- Two-level lookup `bestOf[sid][pid]`. -/
def lookup2 (m : BestMap) (sid pid : String) : Option DOMRecord :=
  match dictLookup m sid with
  | some inner => dictLookup inner pid
  | none => none

/-- "Read id has at least one body-interior hit above threshold in the DOM
list" — the membership criterion of the suspicious-hit map. -/
def isChimeric (opts : ChimeraDetectionOptions) (dom : List DOMRecord)
    (rid : String) : Bool :=
  dom.any (fun d => d.sid = rid && chimCond opts d)

/-- Whether a computation ended in the domain `ClassifierException`. -/
def isClassifierException (x : Except PyError α) : Bool :=
  match x with
  | .error (.classifierException _) => true
  | _ => false

/-! ## Theorems -/

/-- Claim C2, counterexample: in `...CCCAAAAAAAAGG` the 8-long A-run starts at
index 3 (index 2 holds a `C`), yet `_findPolyA` with `min_a_num = 8` does not
return 3: the backtracking loop walks past two of the preceding `C`s and
returns 1. -/
theorem c2_polyA_counterexample :
    (("CCCAAAAAAAAGG".data.drop 3).take 8 = List.replicate 8 'A' ∧
      "CCCAAAAAAAAGG".data.getD 2 ' ' = 'C') ∧
    findPolyA "CCCAAAAAAAAGG".data 8 none = 1 ∧
    findPolyA "CCCAAAAAAAAGG".data 8 none ≠ 3 := by decide

/-- Claim C2, amended: for a sequence ending like `...CCCAAAAAAAAGG` the
poly-A finder returns the index of the first A of the 8-run minus 2 (here 1,
not 3): the backtracking toward 5' also consumes up to two non-A bases, so
the returned tail start sits just after the third non-A.  A sequence whose
longest A-run in the window has only 7 A's still returns -1. -/
theorem c2_polyA_amended :
    findPolyA "CCCAAAAAAAAGG".data 8 none = 1 ∧
    findPolyA "CCCAAAAAAAGG".data 8 none = -1 := by decide

/-- Claim C9, counterexample: for nine A's (a sequence whose only run of ≥ 8
consecutive A's begins at index 0) the finder returns 0, not -1: `rfind`
reports the rightmost 8-A occurrence, which starts at index 1 > 0, and the
backtracking then walks down to the front and returns 0. -/
theorem c9_polyA_zero_counterexample :
    (List.replicate 9 'A').all (fun c => c = 'A') = true ∧
    findPolyA (List.replicate 9 'A') 8 none = 0 ∧ (0 : Int) ≠ -1 := by decide

/-- Claim C9, amended: whenever the `rfind` result itself is 0 — i.e. the
rightmost occurrence of the 8-A block in the search window starts at the very
first base, as happens for a run of exactly eight A's at index 0 — the finder
returns -1, because a found index of 0 fails the strict positivity test. -/
theorem c9_polyA_zero_amended :
    (∀ (seq : List Char) (ts : Option Int),
      pyRfind seq (List.replicate 8 'A') (polyASearchStart seq ts) = 0 →
      findPolyA seq 8 ts = -1) ∧
    findPolyA (List.replicate 8 'A') 8 none = -1 := by
  refine ⟨?_, by decide⟩
  intro seq ts h
  simp only [findPolyA]
  rw [h]
  norm_num

/-- Witness for C9's amended theorem at a concrete input. -/
theorem c9_polyA_zero_amended_witness :
    findPolyA (List.replicate 8 'A' ++ "GG".data) 8 none = -1 :=
  c9_polyA_zero_amended.1 (List.replicate 8 'A' ++ "GG".data) none (by decide)

/-- Claim C10: with a reported read count of 0 and no cached front/back dom
file, the chunk computation of `runPrimerTrimmer` raises `ZeroDivisionError`
(`reads_per_chunk = ceil(0/1) = 0`, then `0 / float(0)`), which is not the
domain `ClassifierException`. -/
theorem c10_zero_reads_division (cpus : Nat) :
    runPrimerTrimmerChunkSetup 0 cpus false = .error .zeroDivisionError := by
  simp [runPrimerTrimmerChunkSetup, primerTrimmerChunkCounts, ceilDivNat]

/-- Witness for C10 at a concrete worker count. -/
theorem c10_zero_reads_division_witness :
    runPrimerTrimmerChunkSetup 0 7 false = .error .zeroDivisionError :=
  c10_zero_reads_division 7

/-- Claim C7, counterexample: with 5 reads and a worker ceiling of 4 the code
computes `reads_per_chunk = ceil(5/4) = 2` and uses `ceil(5/2) = 3` chunks,
not `min(4, 5) = 4`; and the chunks are consecutive blocks, not round-robin
interleavings. -/
theorem c7_chunking_counterexample :
    primerTrimmerChunkCounts 5 4 = .ok (2, 3) ∧
    chunkReads 2 [("a" : String), "b", "c", "d", "e"] = [["a", "b"], ["c", "d"], ["e"]] ∧
    (3 : Nat) ≠ min 4 5 := by decide

set_option maxRecDepth 8000

/-- Claim C5: the read-identity parser maps `m/123/45_200` to well 123, range
45–200, not consensus; maps `m/123/ccs` to well 123, range `[0, len(seq))`,
consensus; and any name matched by none of the three patterns (tried in the
order ccs, bare-consensus, subread-range) fails with the naming `ValueError`. -/
theorem c5_read_identity :
    mkPBRead ⟨"m/123/45_200", "ACGT".data⟩ =
      .ok ⟨"ACGT".data, "m/123/45_200", false, 45, 200, "m", 123⟩ ∧
    mkPBRead ⟨"m/123/ccs", "ACGTA".data⟩ =
      .ok ⟨"ACGTA".data, "m/123/ccs", true, 0, "ACGTA".data.length, "m", 123⟩ ∧
    ∀ rd : FastaRecord, matchCCS rd.name = none → matchZmwEnd rd.name = none →
      matchSubread rd.name = none →
      mkPBRead rd = .error (.valueError ("Unsupported PacBio read " ++ rd.name)) := by
  refine ⟨by decide, by decide, ?_⟩
  intro rd h1 h2 h3
  simp [mkPBRead, h1, h2, h3]

/-- Witness for C5's naming-error clause at a concrete unparseable name. -/
theorem c5_read_identity_witness :
    mkPBRead ⟨"badname", []⟩ = .error (.valueError ("Unsupported PacBio read " ++ "badname")) :=
  c5_read_identity.2.2 ⟨"badname", []⟩ (by decide) (by decide) (by decide)

/-- Claim C8, counterexample: an unsupported read name raises the generic
`ValueError`, not the single domain `ClassifierException` the claim names for
all configuration errors. -/
theorem c8_errors_counterexample :
    mkPBRead ⟨"badname2", []⟩ = .error (.valueError "Unsupported PacBio read badname2") ∧
    isClassifierException (mkPBRead ⟨"badname2", []⟩) = false := by decide

/-- Missing-name first record of the primer FASTA: `ClassifierException`. -/
theorem processPrimers_order_error (r : FastaRecord) (rs : List FastaRecord)
    (w : Nat) (rv : Bool) (h : r.name ≠ "F0") : processPrimers (r :: rs) w rv =
      .error (.classifierException "Primers should be placed in order F0, R0, F1, R1...") := by
  have e1 : ("F" ++ toString (0 : Int)) = "F0" := by decide
  simp only [processPrimers, processPrimersLoop, Nat.zero_mod, if_pos rfl]
  norm_num
  rw [e1]
  simp [h]

/-- Over-length first primer: `ClassifierException`. -/
theorem processPrimers_length_error (r : FastaRecord) (rs : List FastaRecord)
    (w : Nat) (rv : Bool) (h : r.name = "F0") (hw : w < r.sequence.length) :
    processPrimers (r :: rs) w rv =
      .error (.classifierException "Primer F0 has length longer than the window size.") := by
  have e1 : ("F" ++ toString (0 : Int)) = "F0" := by decide
  simp only [processPrimers, processPrimersLoop, Nat.zero_mod, if_pos rfl]
  norm_num
  rw [e1]
  simp only [h, if_pos rfl, if_pos hw]
  simp

/-- A surviving DOM row with neither suffix: `ClassifierException`. -/
theorem getBest_suffix_error (r : DOMRecord) (rs : List DOMRecord)
    (h : badRow r = true) : getBestFrontBackRecord (r :: rs) =
      .error (.classifierException ("Unable to parse a read " ++ r.sid ++
        " in phmmer dom file.")) := by
  simp only [badRow, Bool.and_eq_true, Bool.not_eq_true'] at h
  obtain ⟨⟨h1, h2⟩, h3⟩ := h
  simp only [edgeOK, Bool.not_eq_true', Bool.or_eq_false_iff] at h1
  unfold getBestFrontBackRecord
  rw [List.foldlM_cons]
  unfold bestStep
  simp [h1.1, h1.2, h2, h3]
  rfl

/-- Claim C8, amended: every configuration error except read-name parsing —
missing input/primer/matrix file, malformed primer ordering, over-length
primer, un-suffixed search-hit row — aborts with the single domain
`ClassifierException`; an un-parseable read name instead raises the generic
`ValueError`. -/
theorem c8_errors_amended :
    (∀ p m : Bool, validateInputs false p m =
      .error (.classifierException "Unable to find reads file")) ∧
    (∀ m : Bool, validateInputs true false m =
      .error (.classifierException "Unable to find primer file")) ∧
    (validateInputs true true false =
      .error (.classifierException "Unable to find matrix file for PacBio reads")) ∧
    (∀ (r : FastaRecord) (rs : List FastaRecord) (w : Nat) (rv : Bool),
      r.name ≠ "F0" → processPrimers (r :: rs) w rv =
        .error (.classifierException "Primers should be placed in order F0, R0, F1, R1...")) ∧
    (∀ (r : FastaRecord) (rs : List FastaRecord) (w : Nat) (rv : Bool),
      r.name = "F0" → w < r.sequence.length →
      processPrimers (r :: rs) w rv =
        .error (.classifierException "Primer F0 has length longer than the window size.")) ∧
    (∀ (r : DOMRecord) (rs : List DOMRecord), badRow r = true →
      getBestFrontBackRecord (r :: rs) =
        .error (.classifierException ("Unable to parse a read " ++ r.sid ++
          " in phmmer dom file."))) ∧
    (∀ rd : FastaRecord, matchCCS rd.name = none → matchZmwEnd rd.name = none →
      matchSubread rd.name = none →
      mkPBRead rd = .error (.valueError ("Unsupported PacBio read " ++ rd.name))) := by
  refine ⟨?_, ?_, ?_, ?_, ?_, ?_, ?_⟩
  · intro p m; simp [validateInputs]
  · intro m; simp [validateInputs]
  · simp [validateInputs]
  · exact processPrimers_order_error
  · exact processPrimers_length_error
  · exact getBest_suffix_error
  · intro rd h1 h2 h3
    simp [mkPBRead, h1, h2, h3]

/-- Witness for C8's amended theorem at concrete inputs. -/
theorem c8_errors_amended_witness :
    (validateInputs false true true =
      .error (.classifierException "Unable to find reads file")) ∧
    (processPrimers [(⟨"X0", "ACGT".data⟩ : FastaRecord)] 100 false =
      .error (.classifierException "Primers should be placed in order F0, R0, F1, R1...")) ∧
    (processPrimers [(⟨"F0", List.replicate 200 'A'⟩ : FastaRecord)] 100 false =
      .error (.classifierException "Primer F0 has length longer than the window size.")) ∧
    (getBestFrontBackRecord [(⟨"oops", "F0", 30, 0, 20, 100, 0⟩ : DOMRecord)] =
      .error (.classifierException ("Unable to parse a read " ++ "oops" ++
        " in phmmer dom file."))) ∧
    (mkPBRead ⟨"zzz", []⟩ = .error (.valueError ("Unsupported PacBio read " ++ "zzz"))) := by
  refine ⟨c8_errors_amended.1 true true, ?_, ?_, ?_, ?_⟩
  · exact c8_errors_amended.2.2.2.1 ⟨"X0", "ACGT".data⟩ [] 100 false (by decide)
  · exact c8_errors_amended.2.2.2.2.1 ⟨"F0", List.replicate 200 'A'⟩ [] 100 false rfl (by decide)
  · exact c8_errors_amended.2.2.2.2.2.1 ⟨"oops", "F0", 30, 0, 20, 100, 0⟩ [] (by decide)
  · exact c8_errors_amended.2.2.2.2.2.2 ⟨"zzz", []⟩ (by decide) (by decide) (by decide)

/-- The chunk files of `_chunkReads` concatenate back to the input reads in
order: chunking is by consecutive blocks. -/
theorem chunkReadsAux_flatten (rpc : Nat) (xs : List α) :
    ∀ (i : Nat) (cur : List α), (chunkReadsAux rpc xs i cur).flatten = cur.reverse ++ xs := by
  induction xs with
  | nil => intro i cur; cases cur <;> simp [chunkReadsAux]
  | cons x xs ih =>
    intro i cur
    simp only [chunkReadsAux]
    by_cases h : i % rpc = 0
    · cases cur with
      | nil => simp [h, ih]
      | cons a as => simp [h, ih]
    · simp [h, ih]

theorem range_filter_succ_length (n : Nat) (P : Nat → Bool) :
    ((List.range (n + 1)).filter P).length =
      (if P 0 then 1 else 0) + ((List.range n).filter (fun j => P (j + 1))).length := by
  rw [List.range_succ_eq_map, List.filter_cons]
  by_cases h : P 0
  · simp only [h, if_pos, reduceIte, List.length_cons, List.filter_map]
    simp [Function.comp_def]
    omega
  · simp only [h, Bool.false_eq_true, reduceIte, List.filter_map]
    simp [Function.comp_def]

theorem filter_shift_len (n i rpc : Nat) :
    ((List.range n).filter (fun j => decide ((i + 1 + j) % rpc = 0))).length =
      ((List.range n).filter (fun j => decide ((i + (j + 1)) % rpc = 0))).length := by
  congr 1
  apply List.filter_congr
  intro j _
  rw [show i + 1 + j = i + (j + 1) by omega]

theorem chunkReadsAux_length (rpc : Nat) (xs : List α) :
    ∀ (i : Nat) (cur : List α), (cur = [] → i % rpc = 0) →
      (chunkReadsAux rpc xs i cur).length =
        (if cur.isEmpty then 0 else 1) +
          ((List.range xs.length).filter (fun j => (i + j) % rpc = 0)).length := by
  induction xs with
  | nil => intro i cur _; cases cur <;> simp [chunkReadsAux]
  | cons x xs ih =>
    intro i cur hc
    simp only [chunkReadsAux, List.length_cons]
    rw [range_filter_succ_length]
    by_cases h : i % rpc = 0
    · rw [if_pos h]
      cases cur with
      | nil =>
        simp only [List.isEmpty_nil, reduceIte]
        rw [ih (i + 1) [x] (fun hx => by cases hx)]
        simp only [List.isEmpty_cons, Bool.false_eq_true, if_false]
        rw [filter_shift_len]
        have h0 : (i + 0) % rpc = 0 := by simpa using h
        simp [h0, h]
      | cons a as =>
        simp only [List.isEmpty_cons, Bool.false_eq_true, if_false, List.length_cons]
        rw [ih (i + 1) [x] (fun hx => by cases hx)]
        simp only [List.isEmpty_cons, Bool.false_eq_true, if_false]
        rw [filter_shift_len]
        have h0 : (i + 0) % rpc = 0 := by simpa using h
        simp [h0, h]
        omega
    · rw [if_neg h]
      cases cur with
      | nil => exact absurd (hc rfl) h
      | cons a as =>
        rw [ih (i + 1) (x :: a :: as) (fun hx => by cases hx)]
        simp only [List.isEmpty_cons, Bool.false_eq_true, if_false]
        rw [filter_shift_len]
        have h0 : ¬((i + 0) % rpc = 0) := by simpa using h
        simp [h0, h]

theorem ceilDivNat_succ (n rpc : Nat) (hrpc : 0 < rpc) :
    ceilDivNat (n + 1) rpc = ceilDivNat n rpc + (if n % rpc = 0 then 1 else 0) := by
  unfold ceilDivNat
  have hA : n + 1 + rpc - 1 = n + rpc := by omega
  rw [hA, Nat.add_div_right _ hrpc]
  have hmod := Nat.div_add_mod n rpc
  have hlt : n % rpc < rpc := Nat.mod_lt _ hrpc
  by_cases h : n % rpc = 0
  · rw [if_pos h]
    have hB : n + rpc - 1 = rpc * (n / rpc) + (rpc - 1) := by
      generalize rpc * (n / rpc) = p at hmod
      omega
    rw [hB, Nat.mul_add_div hrpc, Nat.div_eq_of_lt (by omega : rpc - 1 < rpc)]
  · rw [if_neg h]
    have hB : n + rpc - 1 = rpc * (n / rpc + 1) + (n % rpc - 1) := by
      have hm : rpc * (n / rpc + 1) = rpc * (n / rpc) + rpc := by ring
      rw [hm]
      generalize rpc * (n / rpc) = p at hmod
      omega
    rw [hB, Nat.mul_add_div hrpc, Nat.div_eq_of_lt (by omega : n % rpc - 1 < rpc)]

theorem count_multiples_len (rpc : Nat) (hrpc : 0 < rpc) (n : Nat) :
    ((List.range n).filter (fun j => j % rpc = 0)).length = ceilDivNat n rpc := by
  induction n with
  | zero => simp [ceilDivNat, Nat.div_eq_of_lt (by omega : rpc - 1 < rpc)]
  | succ n ih =>
    rw [List.range_succ, List.filter_append, List.length_append, ih,
      ceilDivNat_succ n rpc hrpc]
    by_cases h : n % rpc = 0 <;> simp [h]

theorem chunkReads_length (rpc : Nat) (hrpc : 0 < rpc) (reads : List α) :
    (chunkReads rpc reads).length = ceilDivNat reads.length rpc := by
  have h := chunkReadsAux_length rpc reads 0 [] (fun _ => Nat.zero_mod rpc)
  rw [chunkReads, h]
  simp only [List.isEmpty_nil, reduceIte, Nat.zero_add]
  rw [← count_multiples_len rpc hrpc]

theorem le_mul_ceilDivNat (n k : Nat) (hk : 0 < k) : n ≤ k * ceilDivNat n k := by
  unfold ceilDivNat
  have h1 : (n + k - 1) % k < k := Nat.mod_lt _ hk
  have h2 : k * ((n + k - 1) / k) + (n + k - 1) % k = n + k - 1 := Nat.div_add_mod _ _
  omega

theorem ceilDivNat_pos (n k : Nat) (hn : 0 < n) (hk : 0 < k) : 0 < ceilDivNat n k := by
  unfold ceilDivNat
  have : (1 : Nat) ≤ (n + k - 1) / k := by
    rw [Nat.le_div_iff_mul_le hk]
    omega
  omega

/-- Claim C7, amended: for a positive read count `N` the primer-trim phase
computes `reads_per_chunk = ceil(N / max(min(cpus, N), 1))` and uses
`ceil(N / reads_per_chunk)` chunks; the chunks are consecutive blocks whose
concatenation is the input in order (not a round-robin split), and the chunk
count is at least 1 and at most `max(min(cpus, N), 1)` — but can be strictly
below `min(cpus, N)`. -/
theorem c7_chunking_amended (reads : List FastaRecord) (cpus : Nat)
    (h : 0 < reads.length) :
    ∃ rpc nchunks,
      primerTrimmerChunkCounts reads.length cpus = .ok (rpc, nchunks) ∧
      (chunkReads rpc reads).length = nchunks ∧
      (chunkReads rpc reads).flatten = reads ∧
      1 ≤ nchunks ∧ nchunks ≤ max (min cpus reads.length) 1 := by
  have hk0 : 0 < max (min cpus reads.length) 1 := by omega
  have hrpc : 0 < ceilDivNat reads.length (max (min cpus reads.length) 1) :=
    ceilDivNat_pos _ _ h hk0
  refine ⟨ceilDivNat reads.length (max (min cpus reads.length) 1),
    ceilDivNat reads.length (ceilDivNat reads.length (max (min cpus reads.length) 1)),
    ?_, ?_, ?_, ?_, ?_⟩
  · unfold primerTrimmerChunkCounts
    rw [if_neg (by omega)]
  · exact chunkReads_length _ hrpc reads
  · simpa using chunkReadsAux_flatten _ reads 0 []
  · exact ceilDivNat_pos _ _ h hrpc
  · have hle : reads.length ≤ max (min cpus reads.length) 1 *
        ceilDivNat reads.length (max (min cpus reads.length) 1) :=
      le_mul_ceilDivNat _ _ hk0
    set k0 := max (min cpus reads.length) 1 with hk0def
    set rpc := ceilDivNat reads.length k0 with hrpcdef
    show ceilDivNat reads.length rpc ≤ k0
    unfold ceilDivNat
    have h2 : (reads.length + rpc - 1) / rpc < k0 + 1 := by
      rw [Nat.div_lt_iff_lt_mul hrpc]
      have hx : (k0 + 1) * rpc = k0 * rpc + rpc := by ring
      omega
    omega

/-- Witness for C7's amended theorem at 5 reads and 4 workers. -/
theorem c7_chunking_amended_witness :
    ∃ rpc nchunks,
      primerTrimmerChunkCounts
          ([(⟨"a", []⟩ : FastaRecord), ⟨"b", []⟩, ⟨"c", []⟩, ⟨"d", []⟩, ⟨"e", []⟩].length)
          4 = .ok (rpc, nchunks) ∧
      (chunkReads rpc
        [(⟨"a", []⟩ : FastaRecord), ⟨"b", []⟩, ⟨"c", []⟩, ⟨"d", []⟩, ⟨"e", []⟩]).length =
        nchunks ∧
      (chunkReads rpc
        [(⟨"a", []⟩ : FastaRecord), ⟨"b", []⟩, ⟨"c", []⟩, ⟨"d", []⟩, ⟨"e", []⟩]).flatten =
        [(⟨"a", []⟩ : FastaRecord), ⟨"b", []⟩, ⟨"c", []⟩, ⟨"d", []⟩, ⟨"e", []⟩] ∧
      1 ≤ nchunks ∧
      nchunks ≤ max (min 4
        ([(⟨"a", []⟩ : FastaRecord), ⟨"b", []⟩, ⟨"c", []⟩, ⟨"d", []⟩, ⟨"e", []⟩].length)) 1 :=
  c7_chunking_amended
    [(⟨"a", []⟩ : FastaRecord), ⟨"b", []⟩, ⟨"c", []⟩, ⟨"d", []⟩, ⟨"e", []⟩] 4 (by decide)

/-- Once the selection loop holds a strict maximum, no later entry replaces
it (same-key entries re-select the same pair). -/
theorem pickLoop_absorb (k : Nat × Strand) (sc : ℚ) :
    ∀ L : List ((Nat × Strand) × ℚ),
      (∀ p ∈ L, p.1 ≠ k → p.2 < sc) → (∀ p ∈ L, p.1 = k → p.2 = sc) →
      pickLoop L (some k.1, some k.2, sc) = (some k.1, some k.2, sc) := by
  intro L
  induction L with
  | nil => intro _ _; rfl
  | cons e es ih =>
    intro hlt heq
    simp only [pickLoop]
    by_cases hk : e.1 = k
    · have he : e.2 = sc := heq e (List.mem_cons_self e es) hk
      rw [he, if_pos le_rfl, hk]
      exact ih (fun p hp => hlt p (List.mem_cons_of_mem e hp))
        (fun p hp => heq p (List.mem_cons_of_mem e hp))
    · have he : e.2 < sc := hlt e (List.mem_cons_self e es) hk
      rw [if_neg (not_le.mpr he)]
      exact ih (fun p hp => hlt p (List.mem_cons_of_mem e hp))
        (fun p hp => heq p (List.mem_cons_of_mem e hp))

/-- The selection loop picks a (combo, strand) pair whose tally strictly
dominates every other pair, from any state whose best score it reaches. -/
theorem pickLoop_max (k : Nat × Strand) (sc : ℚ) :
    ∀ (L : List ((Nat × Strand) × ℚ)) (st : Option Nat × Option Strand × ℚ),
      (k, sc) ∈ L → (∀ p ∈ L, p.1 ≠ k → p.2 < sc) → (∀ p ∈ L, p.1 = k → p.2 = sc) →
      st.2.2 ≤ sc → pickLoop L st = (some k.1, some k.2, sc) := by
  intro L
  induction L with
  | nil => intro st hmem; cases hmem
  | cons e es ih =>
    intro st hmem hlt heq hst
    simp only [pickLoop]
    by_cases hk : e.1 = k
    · have he : e.2 = sc := heq e (List.mem_cons_self e es) hk
      rw [if_pos (he ▸ hst), hk, he]
      exact pickLoop_absorb k sc es
        (fun p hp => hlt p (List.mem_cons_of_mem e hp))
        (fun p hp => heq p (List.mem_cons_of_mem e hp))
    · have hmem' : (k, sc) ∈ es := by
        rcases List.mem_cons.mp hmem with h | h
        · exact absurd (congrArg Prod.fst h.symm) hk
        · exact h
      have he : e.2 < sc := hlt e (List.mem_cons_self e es) hk
      by_cases hb : st.2.2 ≤ e.2
      · rw [if_pos hb]
        exact ih (some e.1.1, some e.1.2, e.2) hmem'
          (fun p hp => hlt p (List.mem_cons_of_mem e hp))
          (fun p hp => heq p (List.mem_cons_of_mem e hp)) (le_of_lt he)
      · rw [if_neg hb]
        exact ih st hmem'
          (fun p hp => hlt p (List.mem_cons_of_mem e hp))
          (fun p hp => heq p (List.mem_cons_of_mem e hp)) hst

/-- Membership of the tally list: an entry per index in `primer_indices`, per
strand, valued by `tallyScore`. -/
theorem comboTally_mem (dF dB : Option (List (String × DOMRecord))) (pis : List Nat)
    (j : Nat) (t : Strand) (v : ℚ) :
    ((j, t), v) ∈ comboTally dF dB pis ↔ j ∈ pis ∧ v = tallyScore dF dB j t := by
  simp only [comboTally, List.mem_flatMap]
  constructor
  · rintro ⟨ind, hind, hmem⟩
    simp only [List.mem_cons, List.mem_singleton] at hmem
    rcases hmem with h | h | h
    · cases h
      exact ⟨hind, rfl⟩
    · cases h
      exact ⟨hind, rfl⟩
    · cases h
  · rintro ⟨hj, hv⟩
    refine ⟨j, hj, ?_⟩
    cases t
    · simp [hv]
    · simp [hv]

/-- Claim C4, amended: whenever one (combo, strand) pair has a strictly
greater tally than every other pair AND that tally is at least the `-1000`
initialization sentinel of the selection loop, the arbiter selects it, and
the returned per-side hits of the winner are re-derived through
`getDomRecord`, which nulls out any hit whose individual score is below
`min_score` even though the combo selection used the raw sums. -/
theorem c4_arbiter_amended (dF dB : Option (List (String × DOMRecord)))
    (pis : List Nat) (min_score : ℚ) (i : Nat) (st : Strand) (sc : ℚ)
    (hmem : ((i, st), sc) ∈ comboTally dF dB pis)
    (hmax : ∀ p ∈ comboTally dF dB pis, p.1 ≠ (i, st) → p.2 < sc)
    (hsent : (-1000 : ℚ) ≤ sc) :
    pickBestPrimerCombo dF dB pis min_score =
      (some i, some st,
       (if st = Strand.plus then getDomRecord dF ("F" ++ toString i) min_score
        else getDomRecord dB ("F" ++ toString i) min_score),
       (if st = Strand.plus then getDomRecord dB ("R" ++ toString i) min_score
        else getDomRecord dF ("R" ++ toString i) min_score)) ∧
    (∀ (m : List (String × DOMRecord)) (k : String) (r : DOMRecord),
      dictLookup m k = some r → r.score < min_score →
      getDomRecord (some m) k min_score = none) := by
  constructor
  · have hsc : sc = tallyScore dF dB i st := ((comboTally_mem dF dB pis i st sc).mp hmem).2
    have heq : ∀ p ∈ comboTally dF dB pis, p.1 = (i, st) → p.2 = sc := by
      rintro ⟨⟨j, t⟩, v⟩ hp hpk
      have h1 : j = i := congrArg Prod.fst hpk
      have h2 : t = st := congrArg Prod.snd hpk
      subst h1
      subst h2
      have := ((comboTally_mem dF dB pis j t v).mp hp).2
      rw [this, hsc]
    have hpick := pickLoop_max (i, st) sc (comboTally dF dB pis)
      (none, none, -1000) hmem hmax heq hsent
    unfold pickBestPrimerCombo
    rw [hpick]
    cases st
    · simp
    · simp
  · intro m k r hl hr
    simp [getDomRecord, hl, not_le.mpr hr]

/-- Claim C4, counterexample: with `front[F0].score = -1500` and
`back[F0].score = -1600`, the pair `(0, +)` has a strictly greater tally
(`-1500`) than every other pair, yet the arbiter selects nothing at all
(`(None, None, None, None)`): every tally is below the `-1000`
initialization of `bestScore`, so `bestScore <= s` never fires. -/
theorem c4_arbiter_counterexample :
    (((0, Strand.plus), (-1500 : ℚ)) ∈
      comboTally (some [("F0", ⟨"q", "F0", -1500, 0, 10, 100, 0⟩)])
        (some [("F0", ⟨"q", "F0", -1600, 0, 10, 100, 0⟩)]) [0]) ∧
    ((comboTally (some [("F0", ⟨"q", "F0", -1500, 0, 10, 100, 0⟩)])
        (some [("F0", ⟨"q", "F0", -1600, 0, 10, 100, 0⟩)]) [0]).all
      (fun p => p.1 = (0, Strand.plus) || decide (p.2 < -1500)) = true) ∧
    (pickBestPrimerCombo (some [("F0", ⟨"q", "F0", -1500, 0, 10, 100, 0⟩)])
        (some [("F0", ⟨"q", "F0", -1600, 0, 10, 100, 0⟩)]) [0] 10 =
      (none, none, none, none)) := by
  have eF : ("F" ++ toString (0 : Nat)) = "F0" := by decide
  have eR : ("R" ++ toString (0 : Nat)) = "R0" := by decide
  have ne1 : ("F0" : String) ≠ "R0" := by decide
  have ne2 : ("F0" : String) ≠ "FNone" := by decide
  have ne3 : ("F0" : String) ≠ "RNone" := by decide
  have eFN : ("F" ++ "None") = "FNone" := by decide
  have eRN : ("R" ++ "None") = "RNone" := by decide
  have hct : comboTally (some [("F0", ⟨"q", "F0", -1500, 0, 10, 100, 0⟩)])
      (some [("F0", ⟨"q", "F0", -1600, 0, 10, 100, 0⟩)]) [0] =
      [((0, Strand.plus), -1500), ((0, Strand.minus), -1600)] := by
    norm_num [comboTally, tallyScore, optScore, dictLookup, eF, eR, ne1]
  refine ⟨?_, ?_, ?_⟩
  · rw [hct]
    exact List.mem_cons_self _ _
  · rw [hct]
    norm_num [List.all_cons]
  · norm_num [pickBestPrimerCombo, comboTally, tallyScore, optScore, dictLookup, pickLoop,
      getDomRecord, eF, eR, ne1, ne2, ne3, eFN, eRN]

/-- Witness for C4's amended theorem at a concrete input (also exhibiting a
winning combo whose back hit is nulled for scoring below `min_score`). -/
theorem c4_arbiter_amended_witness :
    pickBestPrimerCombo (some [("F0", ⟨"q", "F0", 20, 0, 10, 100, 0⟩)])
        (some [("R0", ⟨"q", "R0", 5, 0, 10, 100, 0⟩)]) [0] 10 =
      (some 0, some Strand.plus, some ⟨"q", "F0", 20, 0, 10, 100, 0⟩, none) := by
  have eF : ("F" ++ toString (0 : Nat)) = "F0" := by decide
  have eR : ("R" ++ toString (0 : Nat)) = "R0" := by decide
  have ne1 : ("F0" : String) ≠ "R0" := by decide
  have ne4 : ("R0" : String) ≠ "F0" := by decide
  have hmem : ((0, Strand.plus), (25 : ℚ)) ∈
      comboTally (some [("F0", ⟨"q", "F0", 20, 0, 10, 100, 0⟩)])
        (some [("R0", ⟨"q", "R0", 5, 0, 10, 100, 0⟩)]) [0] := by
    rw [comboTally_mem]
    refine ⟨List.mem_singleton.mpr rfl, ?_⟩
    norm_num [tallyScore, optScore, dictLookup, eF, eR]
  have hmax : ∀ p ∈ comboTally (some [("F0", ⟨"q", "F0", 20, 0, 10, 100, 0⟩)])
      (some [("R0", ⟨"q", "R0", 5, 0, 10, 100, 0⟩)]) [0],
      p.1 ≠ (0, Strand.plus) → p.2 < 25 := by
    have hct : comboTally (some [("F0", ⟨"q", "F0", 20, 0, 10, 100, 0⟩)])
        (some [("R0", ⟨"q", "R0", 5, 0, 10, 100, 0⟩)]) [0] =
        [((0, Strand.plus), 25), ((0, Strand.minus), 0)] := by
      norm_num [comboTally, tallyScore, optScore, dictLookup, eF, eR, ne1, ne4]
    rw [hct]
    rintro p hp hne
    rcases List.mem_cons.mp hp with h | h
    · exact absurd (congrArg Prod.fst h) hne
    · rcases List.mem_singleton.mp h with h
      rw [h]
      norm_num
  have h := c4_arbiter_amended (some [("F0", ⟨"q", "F0", 20, 0, 10, 100, 0⟩)])
    (some [("R0", ⟨"q", "R0", 5, 0, 10, 100, 0⟩)]) [0] 10 0 Strand.plus 25
    hmem hmax (by norm_num)
  rw [h.1]
  norm_num [getDomRecord, dictLookup, eF, eR, ne1, ne4]

/-- Lookup after appending a fresh binding at the end of a dict. -/
theorem dictLookup_append_single (d : List (String × α)) (k k' : String) (v : α) :
    dictLookup (d ++ [(k, v)]) k' =
      match dictLookup d k' with
      | some x => some x
      | none => if k = k' then some v else none := by
  induction d with
  | nil => simp [dictLookup]
  | cons p ps ih =>
    by_cases h : p.1 = k'
    · simp [dictLookup, h]
    · simp [dictLookup, h, ih]

/-- Lookup of the inserted key. -/
theorem dictLookup_insert_self (d : List (String × α)) (k : String) (v : α) :
    dictLookup (dictInsert d k v) k = some v := by
  induction d with
  | nil => simp [dictInsert, dictLookup]
  | cons p ps ih =>
    by_cases h : p.1 = k
    · simp [dictInsert, dictLookup, h]
    · simp [dictInsert, dictLookup, h, ih]

/-- Insertion leaves other keys untouched. -/
theorem dictLookup_insert_ne (d : List (String × α)) (k k' : String) (v : α)
    (h : k' ≠ k) : dictLookup (dictInsert d k v) k' = dictLookup d k' := by
  induction d with
  | nil => simp [dictInsert, dictLookup, Ne.symm h]
  | cons p ps ih =>
    by_cases hp : p.1 = k
    · subst hp
      simp [dictInsert, dictLookup, Ne.symm h]
    · simp only [dictInsert, if_neg hp]
      by_cases hp' : p.1 = k'
      · simp [dictLookup, hp']
      · simp [dictLookup, hp', ih]

/-- Appending a hit at key `k` makes exactly the keys `{k} ∪ dom(d)` present. -/
theorem dictAppendAt_isSome (d : List (String × List DOMRecord)) (k rid : String)
    (v : DOMRecord) :
    (dictLookup (dictAppendAt d k v) rid).isSome =
      ((dictLookup d rid).isSome || rid = k) := by
  unfold dictAppendAt
  cases hl : dictLookup d k with
  | some l =>
    by_cases h : rid = k
    · subst h
      simp [dictLookup_insert_self, hl]
    · simp [dictLookup_insert_ne d k rid _ h, h]
  | none =>
    rw [dictLookup_append_single]
    cases hr : dictLookup d rid with
    | some x => simp
    | none =>
      by_cases h : rid = k
      · simp [h]
      · have h' : ¬(k = rid) := fun hh => h hh.symm
        simp [h, h']

/-- A read id is present in the suspicious-hit map iff some DOM row with that
id satisfies the body-interior condition. -/
theorem getChimeraRecord_isSome (opts : ChimeraDetectionOptions) :
    ∀ (dom : List DOMRecord) (acc : List (String × List DOMRecord)) (rid : String),
      (dictLookup (dom.foldl
          (fun acc r => if chimCond opts r then dictAppendAt acc r.sid r else acc) acc)
        rid).isSome =
        ((dictLookup acc rid).isSome || isChimeric opts dom rid) := by
  intro dom
  induction dom with
  | nil => intro acc rid; simp [isChimeric]
  | cons r rs ih =>
    intro acc rid
    rw [List.foldl_cons]
    by_cases hc : chimCond opts r
    · rw [if_pos hc, ih, dictAppendAt_isSome]
      simp only [isChimeric, List.any_cons, hc, Bool.and_true]
      by_cases h : rid = r.sid
      · simp [h]
      · have h' : ¬(r.sid = rid) := fun hh => h hh.symm
        simp [h, h']
    · rw [if_neg hc, ih]
      simp only [isChimeric, List.any_cons, hc]
      simp

/-- The chimera resolver splits the full-length stream by suspicious-map
membership, sets the chimera flag on each side, and writes one report row per
read. -/
theorem updateChimera_lists (susp : List (String × List DOMRecord)) :
    ∀ (reads : List FLRead) (s0 s1 : Summary) (flnc flc : List FLRead) (rows : Nat),
      updateChimeraInfo susp reads s0 = .ok (s1, flnc, flc, rows) →
      flc = (reads.filter (fun rd => (dictLookup susp rd.ann.ID).isSome)).map (setChimera 1) ∧
      flnc = (reads.filter (fun rd => !(dictLookup susp rd.ann.ID).isSome)).map (setChimera 0) ∧
      rows = reads.length := by
  intro reads
  induction reads with
  | nil =>
    intro s0 s1 flnc flc rows h
    simp only [updateChimeraInfo] at h
    cases h
    simp
  | cons rd rds ih =>
    intro s0 s1 flnc flc rows h
    simp only [updateChimeraInfo] at h
    cases hval : dictLookup susp rd.ann.ID with
    | none =>
      rw [hval] at h
      simp only [Option.isSome_none] at h
      rw [if_pos trivial] at h
      by_cases hfl : (setChimera 0 rd).ann.isFullLength = false
      · rw [if_pos hfl] at h
        cases h
      · rw [if_neg hfl] at h
        cases hrec : updateChimeraInfo susp rds
            { s0 with num_flnc := s0.num_flnc + 1,
                      num_flnc_bases := s0.num_flnc_bases + rd.sequence.length } with
        | error e => rw [hrec] at h; cases h
        | ok q =>
          obtain ⟨s', flnc', flc', rows'⟩ := q
          rw [hrec] at h
          cases h
          obtain ⟨h1, h2, h3⟩ := ih _ _ _ _ _ hrec
          refine ⟨?_, ?_, ?_⟩
          · simp [List.filter_cons, hval, h1]
          · simp [List.filter_cons, hval, h2]
          · simp [h3]
    | some l =>
      rw [hval] at h
      simp only [Option.isSome_some] at h
      rw [if_neg (by simp)] at h
      cases hrec : updateChimeraInfo susp rds { s0 with num_flc := s0.num_flc + 1 } with
      | error e => rw [hrec] at h; cases h
      | ok q =>
        obtain ⟨s', flnc', flc', rows'⟩ := q
        rw [hrec] at h
        cases h
        obtain ⟨h1, h2, h3⟩ := ih _ _ _ _ _ hrec
        refine ⟨?_, ?_, ?_⟩
        · simp [List.filter_cons, hval, h1]
        · simp [List.filter_cons, hval, h2]
        · simp [h3]

/-- Claim C3: in the chimera phase a full-length read is flagged chimeric iff
its id has at least one hit in the DOM list with `sStart > min_dist_from_end`,
`sEnd < sLen - min_dist_from_end` and `score > min_score` (the membership
criterion of the body-anchored map); the chimeric and non-chimeric reads go to
two disjoint output streams with the chimera flag set accordingly, and every
read contributes exactly one report row. -/
theorem c3_chimera_resolution (opts : ChimeraDetectionOptions) (dom : List DOMRecord)
    (reads : List FLRead) (s0 s1 : Summary) (flnc flc : List FLRead) (rows : Nat)
    (h : updateChimeraInfo (getChimeraRecord opts dom) reads s0 = .ok (s1, flnc, flc, rows)) :
    flc = (reads.filter (fun rd => isChimeric opts dom rd.ann.ID)).map (setChimera 1) ∧
    flnc = (reads.filter (fun rd => !isChimeric opts dom rd.ann.ID)).map (setChimera 0) ∧
    rows = reads.length ∧
    (∀ rd, rd ∈ flc → rd ∉ flnc) := by
  obtain ⟨h1, h2, h3⟩ := updateChimera_lists _ reads s0 s1 flnc flc rows h
  have hkey : ∀ rid, (dictLookup (getChimeraRecord opts dom) rid).isSome =
      isChimeric opts dom rid := by
    intro rid
    have hx := getChimeraRecord_isSome opts dom [] rid
    simpa [getChimeraRecord, dictLookup] using hx
  have hflc : flc = (reads.filter (fun rd => isChimeric opts dom rd.ann.ID)).map
      (setChimera 1) := by
    rw [h1]
    congr 1
    apply List.filter_congr
    intro rd _
    rw [hkey]
  have hflnc : flnc = (reads.filter (fun rd => !isChimeric opts dom rd.ann.ID)).map
      (setChimera 0) := by
    rw [h2]
    congr 1
    apply List.filter_congr
    intro rd _
    rw [hkey]
  refine ⟨hflc, hflnc, h3, ?_⟩
  intro rd hin hin2
  rw [hflc] at hin
  rw [hflnc] at hin2
  obtain ⟨x, hx, hxe⟩ := List.mem_map.mp hin
  obtain ⟨y, hy, hye⟩ := List.mem_map.mp hin2
  have hc1 : rd.ann.chimera = some 1 := by rw [← hxe]; simp [setChimera]
  have hc0 : rd.ann.chimera = some 0 := by rw [← hye]; simp [setChimera]
  rw [hc1] at hc0
  cases hc0

/-- Witness for C3 at a concrete one-read, one-interior-hit input. -/
theorem c3_chimera_resolution_witness :
    ([(⟨⟨"r1", some Strand.plus, some 20, some 70, some 80, some 0, some 1, false⟩,
        "ACGT".data⟩ : FLRead)] =
      (([(⟨⟨"r1", some Strand.plus, some 20, some 70, some 80, some 0, none, false⟩,
          "ACGT".data⟩ : FLRead)]).filter
        (fun rd => isChimeric ⟨50, 10, 100, 50, 100⟩
          [⟨"r1", "F0", 50, 150, 160, 400, 0⟩] rd.ann.ID)).map (setChimera 1)) ∧
    (([] : List FLRead) =
      (([(⟨⟨"r1", some Strand.plus, some 20, some 70, some 80, some 0, none, false⟩,
          "ACGT".data⟩ : FLRead)]).filter
        (fun rd => !isChimeric ⟨50, 10, 100, 50, 100⟩
          [⟨"r1", "F0", 50, 150, 160, 400, 0⟩] rd.ann.ID)).map (setChimera 0)) ∧
    (1 = ([(⟨⟨"r1", some Strand.plus, some 20, some 70, some 80, some 0, none, false⟩,
        "ACGT".data⟩ : FLRead)]).length) := by
  have h := c3_chimera_resolution ⟨50, 10, 100, 50, 100⟩
    [⟨"r1", "F0", 50, 150, 160, 400, 0⟩]
    [⟨⟨"r1", some Strand.plus, some 20, some 70, some 80, some 0, none, false⟩, "ACGT".data⟩]
    Summary.empty ⟨0, 0, 0, 0, 0, 0, 0, 0, 0, 1⟩ []
    [⟨⟨"r1", some Strand.plus, some 20, some 70, some 80, some 0, some 1, false⟩, "ACGT".data⟩]
    1 (by decide)
  exact ⟨h.1, h.2.1, h.2.2.1⟩

/-- The evidence bumps only touch `num_5_seen`/`num_3_seen`/`num_polyA_seen`;
all bucket counters pass through. -/
theorem evidenceBump_counters (fw rc : Option DOMRecord) (p : Int) (s0 : Summary) :
    (evidenceBump fw rc p { s0 with num_reads := s0.num_reads + 1 }).num_reads =
      s0.num_reads + 1 ∧
    (evidenceBump fw rc p { s0 with num_reads := s0.num_reads + 1 }).num_filtered_short_reads =
      s0.num_filtered_short_reads ∧
    (evidenceBump fw rc p { s0 with num_reads := s0.num_reads + 1 }).num_nfl = s0.num_nfl ∧
    (evidenceBump fw rc p { s0 with num_reads := s0.num_reads + 1 }).num_fl = s0.num_fl ∧
    (evidenceBump fw rc p { s0 with num_reads := s0.num_reads + 1 }).num_flnc = s0.num_flnc ∧
    (evidenceBump fw rc p { s0 with num_reads := s0.num_reads + 1 }).num_flc = s0.num_flc := by
  unfold evidenceBump
  repeat' split
  all_goals exact ⟨rfl, rfl, rfl, rfl, rfl, rfl⟩

/-- One `_trimBarCode` iteration increments `num_reads` once and leaves all
four terminal bucket counters untouched (they are incremented separately,
once, at the recorded disposition). -/
theorem classifyRead_counters (bf bb : BestMap) (pis : List Nat) (msl : Nat) (ms : ℚ)
    (cri ipA : Bool) (read : FastaRecord) (s0 s2 : Summary) (disp : Disposition)
    (rows0 : Nat)
    (h : classifyRead bf bb pis msl ms cri ipA read s0 = .ok (s2, disp, rows0)) :
    s2.num_reads = s0.num_reads + 1 ∧
    s2.num_filtered_short_reads = s0.num_filtered_short_reads ∧
    s2.num_nfl = s0.num_nfl ∧ s2.num_fl = s0.num_fl ∧
    s2.num_flnc = s0.num_flnc ∧ s2.num_flc = s0.num_flc := by
  unfold classifyRead at h
  cases hm : mkPBRead read with
  | error e =>
    rw [hm] at h
    cases h
  | ok pb =>
    rw [hm] at h
    generalize hpk : pickBestPrimerCombo (dictLookup bf read.name) (dictLookup bb read.name)
      pis ms = pk at h
    obtain ⟨pi, st, fw, rc⟩ := pk
    dsimp only at h
    by_cases hb : (fw.isNone && rc.isNone) = true
    · rw [if_pos hb] at h
      split at h
      · cases h
        exact ⟨rfl, rfl, rfl, rfl, rfl, rfl⟩
      · cases h
        exact ⟨rfl, rfl, rfl, rfl, rfl, rfl⟩
    · rw [if_neg hb] at h
      repeat' split at h
      all_goals cases h
      all_goals exact evidenceBump_counters _ _ _ _

/-- Over a whole trim phase: `num_reads` grows by the number of input reads,
the three phase-one buckets (filtered-short, nfl, fl) absorb exactly one
increment per read, `num_fl` counts the full-length output stream, and the
chimera-phase buckets stay untouched. -/
theorem trimBarCode_buckets (bf bb : BestMap) (pis : List Nat) (msl : Nat) (ms : ℚ)
    (cri ipA : Bool) :
    ∀ (reads : List FastaRecord) (s0 s1 : Summary) (fl nfl : List FLRead) (rows : Nat),
      trimBarCode bf bb pis msl ms cri ipA reads s0 = .ok (s1, fl, nfl, rows) →
      s1.num_reads = s0.num_reads + reads.length ∧
      s1.num_filtered_short_reads + s1.num_nfl + s1.num_fl =
        s0.num_filtered_short_reads + s0.num_nfl + s0.num_fl + reads.length ∧
      s1.num_fl = s0.num_fl + fl.length ∧
      s1.num_nfl = s0.num_nfl + nfl.length ∧
      s1.num_flnc = s0.num_flnc ∧ s1.num_flc = s0.num_flc := by
  intro reads
  induction reads with
  | nil =>
    intro s0 s1 fl nfl rows h
    simp only [trimBarCode] at h
    cases h
    simp
  | cons read rest ih =>
    intro s0 s1 fl nfl rows h
    simp only [trimBarCode] at h
    cases hc : classifyRead bf bb pis msl ms cri ipA read s0 with
    | error e => rw [hc] at h; cases h
    | ok q =>
      obtain ⟨s2, disp, rows0⟩ := q
      rw [hc] at h
      obtain ⟨e1, e2, e3, e4, e5, e6⟩ :=
        classifyRead_counters bf bb pis msl ms cri ipA read s0 s2 disp rows0 hc
      cases disp with
      | filteredShort =>
        dsimp only at h
        cases hrec : trimBarCode bf bb pis msl ms cri ipA rest
            { s2 with num_filtered_short_reads := s2.num_filtered_short_reads + 1 } with
        | error e => rw [hrec] at h; cases h
        | ok q2 =>
          obtain ⟨s', fl', nfl', rows'⟩ := q2
          rw [hrec] at h
          cases h
          obtain ⟨g1, g2, g3, g4, g5, g6⟩ := ih _ _ _ _ _ hrec
          simp only [List.length_cons] at *
          exact ⟨by omega, by omega, by omega, by omega, by omega, by omega⟩
      | nonFullLength rec =>
        dsimp only at h
        cases hrec : trimBarCode bf bb pis msl ms cri ipA rest
            { s2 with num_nfl := s2.num_nfl + 1 } with
        | error e => rw [hrec] at h; cases h
        | ok q2 =>
          obtain ⟨s', fl', nfl', rows'⟩ := q2
          rw [hrec] at h
          cases h
          obtain ⟨g1, g2, g3, g4, g5, g6⟩ := ih _ _ _ _ _ hrec
          simp only [List.length_cons] at *
          exact ⟨by omega, by omega, by omega, by omega, by omega, by omega⟩
      | fullLength rec =>
        dsimp only at h
        cases hrec : trimBarCode bf bb pis msl ms cri ipA rest
            { s2 with num_fl := s2.num_fl + 1 } with
        | error e => rw [hrec] at h; cases h
        | ok q2 =>
          obtain ⟨s', fl', nfl', rows'⟩ := q2
          rw [hrec] at h
          cases h
          obtain ⟨g1, g2, g3, g4, g5, g6⟩ := ih _ _ _ _ _ hrec
          simp only [List.length_cons] at *
          exact ⟨by omega, by omega, by omega, by omega, by omega, by omega⟩

/-- Over a whole chimera phase: `num_flnc + num_flc` absorbs exactly one
increment per full-length read and the phase-one counters stay untouched. -/
theorem updateChimera_counters (susp : List (String × List DOMRecord)) :
    ∀ (reads : List FLRead) (s0 s1 : Summary) (flnc flc : List FLRead) (rows : Nat),
      updateChimeraInfo susp reads s0 = .ok (s1, flnc, flc, rows) →
      s1.num_flnc + s1.num_flc = s0.num_flnc + s0.num_flc + reads.length ∧
      s1.num_reads = s0.num_reads ∧
      s1.num_filtered_short_reads = s0.num_filtered_short_reads ∧
      s1.num_nfl = s0.num_nfl ∧ s1.num_fl = s0.num_fl := by
  intro reads
  induction reads with
  | nil =>
    intro s0 s1 flnc flc rows h
    simp only [updateChimeraInfo] at h
    cases h
    simp
  | cons rd rds ih =>
    intro s0 s1 flnc flc rows h
    simp only [updateChimeraInfo] at h
    split at h
    · split at h
      · cases h
      · cases hrec : updateChimeraInfo susp rds
            { s0 with num_flnc := s0.num_flnc + 1,
                      num_flnc_bases := s0.num_flnc_bases + rd.sequence.length } with
        | error e => rw [hrec] at h; cases h
        | ok q =>
          obtain ⟨s', flnc', flc', rows'⟩ := q
          rw [hrec] at h
          cases h
          obtain ⟨g1, g2, g3, g4, g5⟩ := ih _ _ _ _ _ hrec
          simp only [List.length_cons] at *
          exact ⟨by omega, by omega, by omega, by omega, by omega⟩
    · cases hrec : updateChimeraInfo susp rds { s0 with num_flc := s0.num_flc + 1 } with
      | error e => rw [hrec] at h; cases h
      | ok q =>
        obtain ⟨s', flnc', flc', rows'⟩ := q
        rw [hrec] at h
        cases h
        obtain ⟨g1, g2, g3, g4, g5⟩ := ih _ _ _ _ _ hrec
        simp only [List.length_cons] at *
        exact ⟨by omega, by omega, by omega, by omega, by omega⟩

/-- Claim C1: after a successful trim phase over the input reads followed by
a successful chimera phase over the resulting full-length stream, the four
terminal-disposition buckets partition the total read count exactly:
`num_reads = num_filtered_short_reads + num_nfl + num_flnc + num_flc`, and
`num_reads` equals the number of input reads. -/
theorem c1_read_partition (bf bb : BestMap) (pis : List Nat) (msl : Nat) (ms : ℚ)
    (cri ipA : Bool) (reads : List FastaRecord) (susp : List (String × List DOMRecord))
    (s1 s2 : Summary) (fl nfl flnc flc : List FLRead) (rows1 rows2 : Nat)
    (h1 : trimBarCode bf bb pis msl ms cri ipA reads Summary.empty = .ok (s1, fl, nfl, rows1))
    (h2 : updateChimeraInfo susp fl s1 = .ok (s2, flnc, flc, rows2)) :
    s2.num_reads = s2.num_filtered_short_reads + s2.num_nfl + s2.num_flnc + s2.num_flc ∧
    s2.num_reads = reads.length := by
  obtain ⟨a1, a2, a3, a4, a5, a6⟩ :=
    trimBarCode_buckets bf bb pis msl ms cri ipA reads Summary.empty s1 fl nfl rows1 h1
  obtain ⟨b1, b2, b3, b4, b5⟩ :=
    updateChimera_counters susp fl s1 s2 flnc flc rows2 h2
  simp only [Summary.empty] at a1 a2 a3 a4 a5 a6
  omega

/-- Witness for C1 on a concrete one-read run (the read is filtered short,
the chimera phase sees an empty full-length stream). -/
theorem c1_read_partition_witness :
    ((⟨1, 0, 0, 0, 1, 0, 0, 0, 0, 0⟩ : Summary).num_reads =
      (⟨1, 0, 0, 0, 1, 0, 0, 0, 0, 0⟩ : Summary).num_filtered_short_reads +
        (⟨1, 0, 0, 0, 1, 0, 0, 0, 0, 0⟩ : Summary).num_nfl +
        (⟨1, 0, 0, 0, 1, 0, 0, 0, 0, 0⟩ : Summary).num_flnc +
        (⟨1, 0, 0, 0, 1, 0, 0, 0, 0, 0⟩ : Summary).num_flc) ∧
    (⟨1, 0, 0, 0, 1, 0, 0, 0, 0, 0⟩ : Summary).num_reads =
      [(⟨"m/1/ccs", "ACGT".data⟩ : FastaRecord)].length := by
  have h1 : trimBarCode [] [] [0] 50 10 true false [⟨"m/1/ccs", "ACGT".data⟩] Summary.empty =
      .ok (⟨1, 0, 0, 0, 1, 0, 0, 0, 0, 0⟩, [], [], 1) := by
    have hp : pickBestPrimerCombo (dictLookup ([] : BestMap) "m/1/ccs")
        (dictLookup ([] : BestMap) "m/1/ccs") [0] 10 =
        (some 0, some Strand.minus, none, none) := by
      norm_num [pickBestPrimerCombo, comboTally, tallyScore, optScore, dictLookup, pickLoop,
        getDomRecord]
    have hm : mkPBRead ⟨"m/1/ccs", "ACGT".data⟩ =
        .ok ⟨"ACGT".data, "m/1/ccs", true, 0, 4, "m", 1⟩ := by decide
    simp only [trimBarCode, classifyRead]
    rw [hm]
    simp only [hp]
    norm_num [Summary.empty]
  exact c1_read_partition [] [] [0] 50 10 true false [⟨"m/1/ccs", "ACGT".data⟩] []
    ⟨1, 0, 0, 0, 1, 0, 0, 0, 0, 0⟩ ⟨1, 0, 0, 0, 1, 0, 0, 0, 0, 0⟩ [] [] [] [] 1 0 h1 (by decide)

theorem lookup2_bestInsert (m : BestMap) (r : DOMRecord) (sid pid : String) :
    lookup2 (bestInsert m r) sid pid =
      if sid = r.sid ∧ pid = r.pid then keepBest (lookup2 m sid pid) r
      else lookup2 m sid pid := by
  by_cases hs : sid = r.sid
  · subst hs
    by_cases hp : pid = r.pid
    · subst hp
      rw [if_pos ⟨rfl, rfl⟩]
      unfold bestInsert lookup2
      rw [dictLookup_insert_self]
      cases hm : dictLookup m r.sid with
      | none =>
        simp [dictLookup, dictInsert, keepBest]
      | some innerM =>
        simp only [Option.getD_some]
        cases hip : dictLookup innerM r.pid with
        | none => simp [dictLookup_insert_self, keepBest]
        | some old =>
          by_cases hlt : old.score < r.score
          · simp [hlt, dictLookup_insert_self, keepBest]
          · simp [hlt, hip, keepBest]
    · rw [if_neg (fun hc => hp hc.2)]
      unfold bestInsert lookup2
      rw [dictLookup_insert_self]
      cases hm : dictLookup m r.sid with
      | none =>
        simp only [Option.getD_none]
        have hpp : ¬(r.pid = pid) := fun hh => hp hh.symm
        simp [dictLookup, dictInsert, hpp]
      | some innerM =>
        simp only [Option.getD_some]
        cases hip : dictLookup innerM r.pid with
        | none => rw [dictLookup_insert_ne _ _ _ _ hp]
        | some old =>
          dsimp only
          by_cases hlt : old.score < r.score
          · rw [if_pos hlt, dictLookup_insert_ne _ _ _ _ hp]
          · rw [if_neg hlt]
  · rw [if_neg (fun hc => hs hc.1)]
    unfold bestInsert lookup2
    rw [dictLookup_insert_ne _ _ _ _ hs]

theorem exceptBind_ok (a : α) (g : α → Except ε β) : (Except.ok a >>= g) = g a := rfl

theorem exceptBind_error (e : ε) (g : α → Except ε β) :
    ((Except.error e : Except ε α) >>= g) = .error e := rfl

theorem frontSurvivors_cons_skip (r : DOMRecord) (rs : List DOMRecord)
    (h : edgeOK r = false) : frontSurvivors (r :: rs) = frontSurvivors rs := by
  simp [frontSurvivors, List.filter_cons, h]

theorem frontSurvivors_cons_yes (r : DOMRecord) (rs : List DOMRecord)
    (h1 : edgeOK r = true) (h2 : pyEndsWith r.sid "_front" = true) :
    frontSurvivors (r :: rs) = stripFront r :: frontSurvivors rs := by
  simp [frontSurvivors, List.filter_cons, h1, h2]

theorem frontSurvivors_cons_no (r : DOMRecord) (rs : List DOMRecord)
    (h2 : pyEndsWith r.sid "_front" = false) :
    frontSurvivors (r :: rs) = frontSurvivors rs := by
  simp [frontSurvivors, List.filter_cons, h2]

theorem backSurvivors_cons_skip (r : DOMRecord) (rs : List DOMRecord)
    (h : edgeOK r = false) : backSurvivors (r :: rs) = backSurvivors rs := by
  simp [backSurvivors, List.filter_cons, h]

theorem backSurvivors_cons_front (r : DOMRecord) (rs : List DOMRecord)
    (h2 : pyEndsWith r.sid "_front" = true) :
    backSurvivors (r :: rs) = backSurvivors rs := by
  simp [backSurvivors, List.filter_cons, h2]

theorem backSurvivors_cons_yes (r : DOMRecord) (rs : List DOMRecord)
    (h1 : edgeOK r = true) (h2 : pyEndsWith r.sid "_front" = false)
    (h3 : pyEndsWith r.sid "_back" = true) :
    backSurvivors (r :: rs) = stripBack r :: backSurvivors rs := by
  simp [backSurvivors, List.filter_cons, h1, h2, h3]

theorem backSurvivors_cons_no (r : DOMRecord) (rs : List DOMRecord)
    (h3 : pyEndsWith r.sid "_back" = false) :
    backSurvivors (r :: rs) = backSurvivors rs := by
  simp [backSurvivors, List.filter_cons, h3]

theorem candsFor_cons (x : DOMRecord) (l : List DOMRecord) (sid pid : String) :
    candsFor (x :: l) sid pid =
      if (x.sid = sid ∧ x.pid = pid) then x :: candsFor l sid pid
      else candsFor l sid pid := by
  simp only [candsFor, List.filter_cons]
  by_cases h : (x.sid = sid ∧ x.pid = pid)
  · rw [if_pos h]
    simp [h.1, h.2]
  · rw [if_neg h]
    rcases Decidable.not_and_iff_or_not.mp h with h1 | h1 <;> simp [h1]

theorem getBestFold_maps :
    ∀ (rs : List DOMRecord) (st : BestMap × BestMap) (f b : BestMap),
      List.foldlM bestStep st rs = .ok (f, b) →
      ∀ sid pid,
        lookup2 f sid pid =
          (candsFor (frontSurvivors rs) sid pid).foldl keepBest (lookup2 st.1 sid pid) ∧
        lookup2 b sid pid =
          (candsFor (backSurvivors rs) sid pid).foldl keepBest (lookup2 st.2 sid pid) := by
  intro rs
  induction rs with
  | nil =>
    intro st f b h sid pid
    simp only [List.foldlM_nil] at h
    cases h
    simp [frontSurvivors, backSurvivors, candsFor]
  | cons r rs ih =>
    intro st f b h sid pid
    rw [List.foldlM_cons] at h
    by_cases hedge : (decide (r.sStart > 48) || decide (r.pStart > 48)) = true
    · have hstep : bestStep st r = .ok st := by simp [bestStep, hedge]
      rw [hstep, exceptBind_ok] at h
      have hek : edgeOK r = false := by simp [edgeOK, hedge]
      have hx := ih st f b h sid pid
      rw [frontSurvivors_cons_skip r rs hek, backSurvivors_cons_skip r rs hek]
      exact hx
    · have hek : edgeOK r = true := by
        simp only [edgeOK, hedge]
        rfl
      by_cases hfr : pyEndsWith r.sid "_front" = true
      · have hstep : bestStep st r = .ok (bestInsert st.1 (stripFront r), st.2) := by
          simp [bestStep, hedge, hfr]
        rw [hstep, exceptBind_ok] at h
        obtain ⟨ihf, ihb⟩ := ih _ f b h sid pid
        constructor
        · rw [ihf, frontSurvivors_cons_yes r rs hek hfr, candsFor_cons]
          by_cases hmatch : ((stripFront r).sid = sid ∧ (stripFront r).pid = pid)
          · rw [if_pos hmatch, List.foldl_cons]
            have hl := lookup2_bestInsert st.1 (stripFront r) sid pid
            rw [if_pos ⟨hmatch.1.symm, hmatch.2.symm⟩] at hl
            rw [hl]
          · rw [if_neg hmatch]
            have hl := lookup2_bestInsert st.1 (stripFront r) sid pid
            rw [if_neg (fun hc => hmatch ⟨hc.1.symm, hc.2.symm⟩)] at hl
            rw [hl]
        · rw [ihb, backSurvivors_cons_front r rs hfr]
      · by_cases hbk : pyEndsWith r.sid "_back" = true
        · have hstep : bestStep st r = .ok (st.1, bestInsert st.2 (stripBack r)) := by
            simp [bestStep, hedge, hfr, hbk]
          rw [hstep, exceptBind_ok] at h
          obtain ⟨ihf, ihb⟩ := ih _ f b h sid pid
          constructor
          · rw [ihf, frontSurvivors_cons_no r rs (by simpa using hfr)]
          · rw [ihb, backSurvivors_cons_yes r rs hek (by simpa using hfr) hbk, candsFor_cons]
            by_cases hmatch : ((stripBack r).sid = sid ∧ (stripBack r).pid = pid)
            · rw [if_pos hmatch, List.foldl_cons]
              have hl := lookup2_bestInsert st.2 (stripBack r) sid pid
              rw [if_pos ⟨hmatch.1.symm, hmatch.2.symm⟩] at hl
              rw [hl]
            · rw [if_neg hmatch]
              have hl := lookup2_bestInsert st.2 (stripBack r) sid pid
              rw [if_neg (fun hc => hmatch ⟨hc.1.symm, hc.2.symm⟩)] at hl
              rw [hl]
        · have hstep : bestStep st r = .error (.classifierException
              ("Unable to parse a read " ++ r.sid ++ " in phmmer dom file.")) := by
            simp [bestStep, hedge, hfr, hbk]
          rw [hstep, exceptBind_error] at h
          cases h

theorem getBestFold_err :
    ∀ (rs : List DOMRecord) (st : BestMap × BestMap),
      ((∃ e, List.foldlM bestStep st rs = .error e) ↔ ∃ r ∈ rs, badRow r = true) ∧
      (∀ e, List.foldlM bestStep st rs = .error e →
        ∃ msg, e = .classifierException msg) := by
  intro rs
  induction rs with
  | nil =>
    intro st
    constructor
    · constructor
      · rintro ⟨e, he⟩
        simp only [List.foldlM_nil] at he
        cases he
      · rintro ⟨r, hr, _⟩
        cases hr
    · intro e h
      simp only [List.foldlM_nil] at h
      cases h
  | cons r rs ih =>
    intro st
    rw [List.foldlM_cons]
    by_cases hedge : (decide (r.sStart > 48) || decide (r.pStart > 48)) = true
    · have hstep : bestStep st r = .ok st := by simp [bestStep, hedge]
      rw [hstep, exceptBind_ok]
      have hbad : badRow r = false := by
        simp [badRow, edgeOK, hedge]
      constructor
      · rw [(ih st).1]
        simp [hbad]
      · exact (ih st).2
    · by_cases hfr : pyEndsWith r.sid "_front" = true
      · have hstep : bestStep st r = .ok (bestInsert st.1 (stripFront r), st.2) := by
          simp [bestStep, hedge, hfr]
        rw [hstep, exceptBind_ok]
        have hbad : badRow r = false := by simp [badRow, hfr]
        constructor
        · rw [(ih _).1]
          simp [hbad]
        · exact (ih _).2
      · by_cases hbk : pyEndsWith r.sid "_back" = true
        · have hstep : bestStep st r = .ok (st.1, bestInsert st.2 (stripBack r)) := by
            simp [bestStep, hedge, hfr, hbk]
          rw [hstep, exceptBind_ok]
          have hbad : badRow r = false := by simp [badRow, hbk]
          constructor
          · rw [(ih _).1]
            simp [hbad]
          · exact (ih _).2
        · have hstep : bestStep st r = .error (.classifierException
              ("Unable to parse a read " ++ r.sid ++ " in phmmer dom file.")) := by
            simp [bestStep, hedge, hfr, hbk]
          rw [hstep, exceptBind_error]
          have hbad : badRow r = true := by
            simp [badRow, edgeOK, hedge, hfr, hbk]
          constructor
          · constructor
            · intro _
              exact ⟨r, List.mem_cons_self r rs, hbad⟩
            · intro _
              exact ⟨_, rfl⟩
          · intro e h
            cases h
            exact ⟨_, rfl⟩

theorem keepBest_score_le (acc : Option DOMRecord) (r o : DOMRecord)
    (h : keepBest acc r = some o) :
    r.score ≤ o.score ∧ (o = r ∨ acc = some o) := by
  cases acc with
  | none =>
    simp only [keepBest] at h
    cases h
    exact ⟨le_rfl, Or.inl rfl⟩
  | some a =>
    simp only [keepBest] at h
    by_cases hlt : a.score < r.score
    · rw [if_pos hlt] at h
      cases h
      exact ⟨le_rfl, Or.inl rfl⟩
    · rw [if_neg hlt] at h
      cases h
      exact ⟨le_of_not_lt hlt, Or.inr rfl⟩

theorem foldl_keepBest_spec :
    ∀ (l : List DOMRecord) (acc : Option DOMRecord) (res : DOMRecord),
      l.foldl keepBest acc = some res →
      (res ∈ l ∨ acc = some res) ∧ (∀ x ∈ l, x.score ≤ res.score) ∧
      (∀ a, acc = some a → a.score ≤ res.score) := by
  intro l
  induction l with
  | nil =>
    intro acc res h
    simp only [List.foldl_nil] at h
    exact ⟨Or.inr h, by simp, fun a ha => by rw [ha] at h; cases h; exact le_rfl⟩
  | cons x l ih =>
    intro acc res h
    rw [List.foldl_cons] at h
    obtain ⟨m1, m2, m3⟩ := ih (keepBest acc x) res h
    have hk : ∀ o, keepBest acc x = some o → x.score ≤ res.score ∧
        (∀ a, acc = some a → a.score ≤ res.score) := by
      intro o ho
      obtain ⟨hxo, hor⟩ := keepBest_score_le acc x o ho
      have hores : o.score ≤ res.score := m3 o ho
      refine ⟨le_trans hxo hores, ?_⟩
      intro a ha
      subst ha
      simp only [keepBest] at ho
      by_cases hlt : a.score < x.score
      · exact le_trans (le_of_lt hlt) (le_trans hxo hores)
      · rw [if_neg hlt] at ho
        cases ho
        exact hores
    have hsome : ∃ o, keepBest acc x = some o := by
      cases acc with
      | none => exact ⟨x, rfl⟩
      | some a =>
        simp only [keepBest]
        by_cases hlt : a.score < x.score
        · rw [if_pos hlt]; exact ⟨x, rfl⟩
        · rw [if_neg hlt]; exact ⟨a, rfl⟩
    obtain ⟨o, ho⟩ := hsome
    obtain ⟨hx1, hx2⟩ := hk o ho
    refine ⟨?_, ?_, hx2⟩
    · rcases m1 with hm | hm
      · exact Or.inl (List.mem_cons_of_mem x hm)
      · rw [ho] at hm
        cases hm
        obtain ⟨_, hor⟩ := keepBest_score_le acc x res ho
        rcases hor with hres | hacc
        · rw [hres]
          exact Or.inl (List.mem_cons_self x l)
        · exact Or.inr hacc
    · intro y hy
      rcases List.mem_cons.mp hy with hyx | hy2
      · rw [hyx]
        exact hx1
      · exact m2 y hy2

theorem foldl_keepBest_isSome_of_acc :
    ∀ (l : List DOMRecord) (a : DOMRecord), (l.foldl keepBest (some a)).isSome = true := by
  intro l
  induction l with
  | nil => intro a; rfl
  | cons x l ih =>
    intro a
    rw [List.foldl_cons]
    simp only [keepBest]
    by_cases hlt : a.score < x.score
    · rw [if_pos hlt]; exact ih x
    · rw [if_neg hlt]; exact ih a

theorem bestOfList_isSome (l : List DOMRecord) (h : l ≠ []) :
    (bestOfList l).isSome = true := by
  cases l with
  | nil => exact absurd rfl h
  | cons x l =>
    unfold bestOfList
    rw [List.foldl_cons]
    exact foldl_keepBest_isSome_of_acc l x

theorem bestOfList_spec (l : List DOMRecord) (r : DOMRecord)
    (h : bestOfList l = some r) : r ∈ l ∧ ∀ x ∈ l, x.score ≤ r.score := by
  obtain ⟨m1, m2, _⟩ := foldl_keepBest_spec l none r h
  refine ⟨?_, m2⟩
  rcases m1 with hm | hm
  · exact hm
  · cases hm

/-- Claim C6: `_getBestFrontBackRecord` keeps, for every (sequence id, primer id)
pair, the maximum-score domain hit among the edge-passing rows, routing rows by
their `_front`/`_back` suffix and stripping it; any surviving row with neither
suffix aborts the scan with a `ClassifierException`; on ties the first row wins
(strict `<` comparison keeps the incumbent). -/
theorem c6_best_hit_selector (rs : List DOMRecord) :
    ((∃ msg, getBestFrontBackRecord rs = .error (.classifierException msg)) ↔
      ∃ r ∈ rs, badRow r = true) ∧
    (∀ f b, getBestFrontBackRecord rs = .ok (f, b) →
      ∀ sid pid,
        lookup2 f sid pid = bestOfList (candsFor (frontSurvivors rs) sid pid) ∧
        lookup2 b sid pid = bestOfList (candsFor (backSurvivors rs) sid pid)) ∧
    (∀ (l : List DOMRecord) (r : DOMRecord), bestOfList l = some r →
      r ∈ l ∧ ∀ x ∈ l, x.score ≤ r.score) ∧
    (∀ l : List DOMRecord, l ≠ [] → (bestOfList l).isSome = true) := by
  refine ⟨?_, ?_, bestOfList_spec, bestOfList_isSome⟩
  · constructor
    · rintro ⟨msg, hmsg⟩
      exact (getBestFold_err rs ([], [])).1.mp ⟨_, hmsg⟩
    · intro hex
      obtain ⟨e, he⟩ := (getBestFold_err rs ([], [])).1.mpr hex
      obtain ⟨msg, hm⟩ := (getBestFold_err rs ([], [])).2 e he
      refine ⟨msg, ?_⟩
      rw [← hm]
      exact he
  · intro f b hok sid pid
    have hx := getBestFold_maps rs ([], []) f b hok sid pid
    simpa [lookup2, dictLookup, bestOfList] using hx

/-- Witness for C6 on a single `_front` row: the front map holds the stripped
record and the fold result matches the `bestOfList` characterisation. -/
theorem c6_best_hit_selector_witness :
    (lookup2 [("read1", [("F0", (⟨"read1", "F0", 30, 0, 20, 100, 0⟩ : DOMRecord))])]
        "read1" "F0" =
      bestOfList (candsFor (frontSurvivors [⟨"read1_front", "F0", 30, 0, 20, 100, 0⟩])
        "read1" "F0")) ∧
    (lookup2 [] "read1" "F0" =
      bestOfList (candsFor (backSurvivors [⟨"read1_front", "F0", 30, 0, 20, 100, 0⟩])
        "read1" "F0")) :=
  (c6_best_hit_selector [⟨"read1_front", "F0", 30, 0, 20, 100, 0⟩]).2.1
    [("read1", [("F0", ⟨"read1", "F0", 30, 0, 20, 100, 0⟩)])] [] (by decide) "read1" "F0"

